import Mathlib

/-!
Verification of the FE4 arena win-chance calculator (`src/fe4/arena_calc.py`).

The core under verification is `compute_win_chance`, a dynamic-programming
solver over the joint HP state space.  Probabilities are modelled in `ℚ`
(exact arithmetic standing in for Python's double-precision floats); HP and
damage values are `ℕ` (the caller clamps damages with `max(..., 0)` before
the call, and the numpy table rejects negative HP, see
`compute_win_chance_py`); hit chances are `ℤ`, used only via division
by 100.  Truncated `ℕ` subtraction `b - d` coincides with the source's
`max(b - d, 0)`.
-/

/-- A DP table `dp[playerHP][enemyHP]`, total function model of the
`(player_hp+1) × (enemy_hp+1)` numpy array (only in-bounds indices are ever
read or written by the algorithm). -/
abbrev Table := ℕ → ℕ → ℚ

/-- The allocation `np.zeros((player_hp + 1, enemy_hp + 1))`. -/
def zeros_table : Table := fun _ _ => 0

/-- The assignment `dp[0, :] = 0` — player dead. -/
def set_row_zero (t : Table) : Table := fun b e => if b = 0 then 0 else t b e

/-- The assignment `dp[:, 0] = 1` — enemy dead.  Applied after `set_row_zero`, so it
overwrites cell `(0,0)` with 1. -/
def set_col_zero (t : Table) : Table := fun b e => if e = 0 then 1 else t b e

/-- The table right after the two boundary assignments, in source order:
zeros, then row 0 set to 0, then column 0 set to 1. -/
def init_dp : Table := set_col_zero (set_row_zero zeros_table)

/-- The write `dp[b_hp][e_hp] = v`, leaving every other cell unchanged. -/
def updateCell (t : Table) (b_hp e_hp : ℕ) (v : ℚ) : Table :=
  fun b e => if b = b_hp ∧ e = e_hp then v else t b e

/-- One iteration of the innermost loop body:
`prob = 0; for d_beo, d_opp, p in round_outcomes: prob += p * dp[max(b_hp - d_opp, 0)][max(e_hp - d_beo, 0)]`.
An outcome is a triple `(d_beo, d_opp, p)`: damage dealt by the player,
damage dealt by the enemy, probability. -/
def cellProb (outcomes : List (ℕ × ℕ × ℚ)) (t : Table) (b_hp e_hp : ℕ) : ℚ :=
  (outcomes.map (fun o => o.2.2 * t (b_hp - o.2.1) (e_hp - o.1))).sum

/-- The inner loop `for e_hp in range(1, enemy_hp + 1): dp[b_hp][e_hp] = prob`. -/
def fillRow (outcomes : List (ℕ × ℕ × ℚ)) (enemy_hp b_hp : ℕ) (t : Table) : Table :=
  (List.range' 1 enemy_hp).foldl
    (fun dp e_hp => updateCell dp b_hp e_hp (cellProb outcomes dp b_hp e_hp)) t

/-- The outer loop `for b_hp in range(1, player_hp + 1)`. -/
def fillTable (outcomes : List (ℕ × ℕ × ℚ)) (player_hp enemy_hp : ℕ) (t : Table) : Table :=
  (List.range' 1 player_hp).foldl
    (fun dp b_hp => fillRow outcomes enemy_hp b_hp dp) t

/-- Round outcomes for `doubling == "enemy" or doubling == "unknown"`:
player gets 1 attack, enemy gets 2. -/
def outcomes_enemy (player_dmg enemy_dmg : ℕ) (p_phit p_emhit : ℚ) :
    List (ℕ × ℕ × ℚ) :=
  let p_pmiss := 1 - p_phit
  let p_emmiss := 1 - p_emhit
  [ (player_dmg, 2 * enemy_dmg, p_phit * p_emhit * p_emhit),
    (player_dmg, enemy_dmg, p_phit * (2 * p_emhit * p_emmiss)),
    (player_dmg, 0, p_phit * p_emmiss * p_emmiss),
    (0, 2 * enemy_dmg, p_pmiss * p_emhit * p_emhit),
    (0, enemy_dmg, p_pmiss * (2 * p_emhit * p_emmiss)),
    (0, 0, p_pmiss * p_emmiss * p_emmiss) ]

/-- Round outcomes for `doubling == "player"`: player gets 2 attacks, enemy 1. -/
def outcomes_player (player_dmg enemy_dmg : ℕ) (p_phit p_emhit : ℚ) :
    List (ℕ × ℕ × ℚ) :=
  let p_pmiss := 1 - p_phit
  let p_emmiss := 1 - p_emhit
  [ (2 * player_dmg, enemy_dmg, p_phit * p_phit * p_emhit),
    (player_dmg, enemy_dmg, 2 * p_phit * p_pmiss * p_emhit),
    (0, enemy_dmg, p_pmiss * p_pmiss * p_emhit),
    (2 * player_dmg, 0, p_phit * p_phit * p_emmiss),
    (player_dmg, 0, 2 * p_phit * p_pmiss * p_emmiss),
    (0, 0, p_pmiss * p_pmiss * p_emmiss) ]

/-- Round outcomes for the final `else` branch (`'none'` and any other
string): both sides get 1 attack. -/
def outcomes_none (player_dmg enemy_dmg : ℕ) (p_phit p_emhit : ℚ) :
    List (ℕ × ℕ × ℚ) :=
  let p_pmiss := 1 - p_phit
  let p_emmiss := 1 - p_emhit
  [ (player_dmg, enemy_dmg, p_phit * p_emhit),
    (player_dmg, 0, p_phit * p_emmiss),
    (0, enemy_dmg, p_pmiss * p_emhit),
    (0, 0, p_pmiss * p_emmiss) ]

/-- The `if doubling == ... / elif / else` dispatch on the doubling mode. -/
def round_outcomes (player_dmg enemy_dmg : ℕ) (p_phit p_emhit : ℚ)
    (doubling : String) : List (ℕ × ℕ × ℚ) :=
  if doubling = "enemy" ∨ doubling = "unknown" then
    outcomes_enemy player_dmg enemy_dmg p_phit p_emhit
  else if doubling = "player" then
    outcomes_player player_dmg enemy_dmg p_phit p_emhit
  else
    outcomes_none player_dmg enemy_dmg p_phit p_emhit

/-- The function `compute_win_chance(player_hp, enemy_hp, player_hit, player_dmg, enemy_hit, enemy_dmg, doubling)`
from `src/fe4/arena_calc.py`: builds the boundary table, the outcome set
(`p_phit = player_hit / 100`, `p_emhit = enemy_hit / 100`), fills the DP
table row by row, and returns `dp[player_hp][enemy_hp]`. -/
def compute_win_chance (player_hp enemy_hp : ℕ) (player_hit : ℤ)
    (player_dmg : ℕ) (enemy_hit : ℤ) (enemy_dmg : ℕ) (doubling : String) : ℚ :=
  let p_phit : ℚ := (player_hit : ℚ) / 100
  let p_emhit : ℚ := (enemy_hit : ℚ) / 100
  let dp := fillTable (round_outcomes player_dmg enemy_dmg p_phit p_emhit doubling)
    player_hp enemy_hp init_dp
  dp player_hp enemy_hp

/-- The Python-level call as seen by a caller, HP passed as arbitrary
integers.  `np.zeros` raises `ValueError` on a negative dimension and the
boundary slice assignments raise `IndexError` on an empty axis, so any call
with a negative HP propagates an exception and produces no result: modelled
as `none`.  Every call with non-negative HPs runs to completion.  (Damages
are non-negative here because the caller `run()` clamps both with
`max(..., 0)`.) -/
def compute_win_chance_py (player_hp enemy_hp : ℤ) (player_hit : ℤ)
    (player_dmg : ℕ) (enemy_hit : ℤ) (enemy_dmg : ℕ) (doubling : String) :
    Option ℚ :=
  if player_hp < 0 ∨ enemy_hp < 0 then none
  else some (compute_win_chance player_hp.toNat enemy_hp.toNat player_hit
    player_dmg enemy_hit enemy_dmg doubling)

/-- One round of the fight as the spec describes it, as a map on win-chance
functions: from state `(b, e)` with both sides alive, each outcome
`(d_beo, d_opp, p)` moves to `(b - d_opp, e - d_beo)` with probability `p`;
a state with `e = 0` is a player win (this covers `(0,0)`: the player's HP
reached 0 no later than the enemy's), a state with `b = 0 < e` is a loss. -/
def trueStep (outcomes : List (ℕ × ℕ × ℚ)) (f : ℕ → ℕ → ℚ) : ℕ → ℕ → ℚ :=
  fun b e =>
    if e = 0 then 1
    else if b = 0 then 0
    else (outcomes.map (fun o => o.2.2 * f (b - o.2.1) (e - o.1))).sum

/-- Modelled from the spec (§2, §8, glossary): `winWithin outcomes n b e` is
the probability, over all length-`n` sequences of per-round outcomes, that
starting from HPs `(b, e)` the player has won within `n` rounds — i.e. the
enemy's HP has reached 0 no later than the player's.  The spec's "win
probability over all possible sequences" is the monotone limit of these
finite-horizon probabilities (see `winWithin_fuel_mono`). -/
def winWithin (outcomes : List (ℕ × ℕ × ℚ)) : ℕ → ℕ → ℕ → ℚ
  | 0 => fun _ e => if e = 0 then 1 else 0
  | n + 1 => trueStep outcomes (winWithin outcomes n)

/-- One round of the modified ("lossy") fight that the DP code actually
solves: identical to `trueStep`, except that an outcome dealing zero damage
to both sides (so that the state would not change) contributes 0 instead of
re-entering the state — exactly what the source's table read
`dp[next_b][next_e]` yields there, since that cell still holds its
`np.zeros` value when it is consulted. -/
def lossyStep (outcomes : List (ℕ × ℕ × ℚ)) (f : ℕ → ℕ → ℚ) : ℕ → ℕ → ℚ :=
  fun b e =>
    if e = 0 then 1
    else if b = 0 then 0
    else (outcomes.map (fun o =>
      if o.1 = 0 ∧ o.2.1 = 0 then 0
      else o.2.2 * f (b - o.2.1) (e - o.1))).sum

/-- Finite-horizon win probability of the lossy fight: a null round (zero
damage to both sides) immediately ends the fight as a player loss.  From any
live state every non-null round strictly decreases `b + e`, so this
stabilises once the fuel reaches `b + e` (`lossyWinWithin_stable`). -/
def lossyWinWithin (outcomes : List (ℕ × ℕ × ℚ)) : ℕ → ℕ → ℕ → ℚ
  | 0 => fun _ e => if e = 0 then 1 else 0
  | n + 1 => lossyStep outcomes (lossyWinWithin outcomes n)

/-- The table state just before the loop body computes `dp[b_hp][e_hp]`:
rows `1 .. b_hp - 1` are completely filled, and in row `b_hp` columns
`1 .. e_hp - 1` are filled. -/
def table_before (outcomes : List (ℕ × ℕ × ℚ)) (enemy_hp b_hp e_hp : ℕ) : Table :=
  fillRow outcomes (e_hp - 1) b_hp (fillTable outcomes (b_hp - 1) enemy_hp init_dp)

/-! ## Basic facts about the table fill -/

lemma round_outcomes_none_str (player_dmg enemy_dmg : ℕ) (p_phit p_emhit : ℚ) :
    round_outcomes player_dmg enemy_dmg p_phit p_emhit "none" =
      outcomes_none player_dmg enemy_dmg p_phit p_emhit := by
  simp [round_outcomes]

lemma round_outcomes_enemy_str (player_dmg enemy_dmg : ℕ) (p_phit p_emhit : ℚ) :
    round_outcomes player_dmg enemy_dmg p_phit p_emhit "enemy" =
      outcomes_enemy player_dmg enemy_dmg p_phit p_emhit := by
  simp [round_outcomes]

lemma round_outcomes_unknown_str (player_dmg enemy_dmg : ℕ) (p_phit p_emhit : ℚ) :
    round_outcomes player_dmg enemy_dmg p_phit p_emhit "unknown" =
      outcomes_enemy player_dmg enemy_dmg p_phit p_emhit := by
  simp [round_outcomes]

lemma round_outcomes_player_str (player_dmg enemy_dmg : ℕ) (p_phit p_emhit : ℚ) :
    round_outcomes player_dmg enemy_dmg p_phit p_emhit "player" =
      outcomes_player player_dmg enemy_dmg p_phit p_emhit := by
  simp [round_outcomes]

lemma round_outcomes_other_str (player_dmg enemy_dmg : ℕ) (p_phit p_emhit : ℚ)
    (s : String) (h1 : s ≠ "enemy") (h2 : s ≠ "unknown") (h3 : s ≠ "player") :
    round_outcomes player_dmg enemy_dmg p_phit p_emhit s =
      outcomes_none player_dmg enemy_dmg p_phit p_emhit := by
  simp [round_outcomes, h1, h2, h3]

lemma init_dp_apply (b e : ℕ) :
    init_dp b e = if e = 0 then 1 else if b = 0 then 0 else 0 := by
  simp [init_dp, set_col_zero, set_row_zero, zeros_table]

lemma updateCell_same (t : Table) (b e : ℕ) (v : ℚ) : updateCell t b e v b e = v := by
  simp [updateCell]

lemma updateCell_ne (t : Table) (b e : ℕ) (v : ℚ) (b' e' : ℕ)
    (h : ¬(b' = b ∧ e' = e)) : updateCell t b e v b' e' = t b' e' := by
  simp [updateCell, h]

lemma range'_one_concat (n : ℕ) :
    List.range' 1 (n + 1) = List.range' 1 n ++ [n + 1] := by
  simpa [Nat.add_comm] using @List.range'_concat 1 1 n

lemma fillRow_zero (outcomes : List (ℕ × ℕ × ℚ)) (b_hp : ℕ) (t : Table) :
    fillRow outcomes 0 b_hp t = t := rfl

lemma fillRow_succ (outcomes : List (ℕ × ℕ × ℚ)) (E b_hp : ℕ) (t : Table) :
    fillRow outcomes (E + 1) b_hp t =
      updateCell (fillRow outcomes E b_hp t) b_hp (E + 1)
        (cellProb outcomes (fillRow outcomes E b_hp t) b_hp (E + 1)) := by
  unfold fillRow
  rw [range'_one_concat, List.foldl_append]
  rfl

lemma fillTable_zero (outcomes : List (ℕ × ℕ × ℚ)) (E : ℕ) (t : Table) :
    fillTable outcomes 0 E t = t := rfl

lemma fillTable_succ (outcomes : List (ℕ × ℕ × ℚ)) (P E : ℕ) (t : Table) :
    fillTable outcomes (P + 1) E t =
      fillRow outcomes E (P + 1) (fillTable outcomes P E t) := by
  unfold fillTable
  rw [range'_one_concat, List.foldl_append]
  rfl

/-- The inner loop `fillRow` only writes into row `b_hp`. -/
lemma fillRow_ne_row (outcomes : List (ℕ × ℕ × ℚ)) (E b_hp : ℕ) (t : Table)
    (b e : ℕ) (hb : b ≠ b_hp) : fillRow outcomes E b_hp t b e = t b e := by
  induction E with
  | zero => rfl
  | succ E ih =>
    rw [fillRow_succ, updateCell_ne _ _ _ _ _ _ (by tauto)]
    exact ih

/-- The inner loop `fillRow ... E` only writes into columns `1 .. E`. -/
lemma fillRow_ne_col (outcomes : List (ℕ × ℕ × ℚ)) (E b_hp : ℕ) (t : Table)
    (b e : ℕ) (he : e = 0 ∨ E < e) : fillRow outcomes E b_hp t b e = t b e := by
  induction E with
  | zero => rfl
  | succ E ih =>
    rw [fillRow_succ, updateCell_ne _ _ _ _ _ _ (by omega)]
    exact ih (by omega)

/-- The fill `fillTable ... P E` only writes into rows `1 .. P` and columns `1 .. E`. -/
lemma fillTable_untouched (outcomes : List (ℕ × ℕ × ℚ)) (P E : ℕ) (t : Table)
    (b e : ℕ) (h : b = 0 ∨ P < b ∨ e = 0 ∨ E < e) :
    fillTable outcomes P E t b e = t b e := by
  induction P with
  | zero => rfl
  | succ P ih =>
    rw [fillTable_succ]
    by_cases hb : b = P + 1
    · subst hb
      rw [fillRow_ne_col _ _ _ _ _ _ (by omega)]
      exact ih (by omega)
    · rw [fillRow_ne_row _ _ _ _ _ _ hb]
      exact ih (by omega)

/-- A row is stable once processed: for `b ≤ P` the final value of row `b`
is already reached after `fillTable ... b`. -/
lemma fillTable_row_stable (outcomes : List (ℕ × ℕ × ℚ)) (P E : ℕ) (t : Table)
    (b : ℕ) (hb1 : 1 ≤ b) (hbP : b ≤ P) (e : ℕ) :
    fillTable outcomes P E t b e = fillTable outcomes b E t b e := by
  induction P with
  | zero => omega
  | succ P ih =>
    by_cases hb : b = P + 1
    · subst hb; rfl
    · rw [fillTable_succ, fillRow_ne_row _ _ _ _ _ _ hb]
      exact ih (by omega)

/-- A column of the processed row is stable once written. -/
lemma fillRow_col_stable (outcomes : List (ℕ × ℕ × ℚ)) (E b_hp : ℕ) (t : Table)
    (e : ℕ) (he1 : 1 ≤ e) (heE : e ≤ E) :
    fillRow outcomes E b_hp t b_hp e = fillRow outcomes e b_hp t b_hp e := by
  induction E with
  | zero => omega
  | succ E ih =>
    by_cases he : e = E + 1
    · subst he; rfl
    · rw [fillRow_succ, updateCell_ne _ _ _ _ _ _ (by omega)]
      exact ih (by omega)

/-- The value written into cell `(b_hp, e)` is `cellProb` of the state
just before that write. -/
lemma fillRow_written (outcomes : List (ℕ × ℕ × ℚ)) (b_hp : ℕ) (t : Table)
    (e : ℕ) (he1 : 1 ≤ e) :
    fillRow outcomes e b_hp t b_hp e =
      cellProb outcomes (fillRow outcomes (e - 1) b_hp t) b_hp e := by
  obtain ⟨E, rfl⟩ : ∃ E, e = E + 1 := ⟨e - 1, by omega⟩
  rw [fillRow_succ]
  simp [updateCell]

/-- Master recurrence: each interior cell of the final table equals
`cellProb` evaluated on the table state just before that cell was filled. -/
lemma fillTable_master (outcomes : List (ℕ × ℕ × ℚ)) (P E : ℕ)
    (b e : ℕ) (hb1 : 1 ≤ b) (hbP : b ≤ P) (he1 : 1 ≤ e) (heE : e ≤ E) :
    fillTable outcomes P E init_dp b e =
      cellProb outcomes (table_before outcomes E b e) b e := by
  rw [fillTable_row_stable _ _ _ _ _ hb1 hbP]
  obtain ⟨B, rfl⟩ : ∃ B, b = B + 1 := ⟨b - 1, by omega⟩
  rw [fillTable_succ, fillRow_col_stable _ _ _ _ _ he1 heE,
    fillRow_written _ _ _ _ he1]
  simp [table_before]

/-- At the moment cell `(b, e)` is being computed, the cell itself still
holds its initial value. -/
lemma table_before_self (outcomes : List (ℕ × ℕ × ℚ)) (E b e : ℕ)
    (hb1 : 1 ≤ b) (he1 : 1 ≤ e) :
    table_before outcomes E b e b e = init_dp b e := by
  unfold table_before
  rw [fillRow_ne_col _ _ _ _ _ _ (by omega)]
  exact fillTable_untouched _ _ _ _ _ _ (by omega)

/-- At the moment cell `(b, e)` is being computed, every cell `(r1, r2)`
with `r1 ≤ b`, `r2 ≤ e` other than `(b, e)` itself already holds its final
value. -/
lemma table_before_read (outcomes : List (ℕ × ℕ × ℚ)) (P E : ℕ)
    (b e : ℕ) (hb1 : 1 ≤ b) (hbP : b ≤ P) (he1 : 1 ≤ e) (heE : e ≤ E)
    (r1 r2 : ℕ) (h1 : r1 ≤ b) (h2 : r2 ≤ e) (hne : ¬(r1 = b ∧ r2 = e)) :
    table_before outcomes E b e r1 r2 = fillTable outcomes P E init_dp r1 r2 := by
  unfold table_before
  rcases Nat.eq_zero_or_pos r1 with hr1 | hr1
  · subst hr1
    rw [fillRow_ne_row _ _ _ _ _ _ (by omega)]
    rw [fillTable_untouched _ _ _ _ _ _ (by omega),
      fillTable_untouched _ _ _ _ _ _ (by omega)]
  rcases Nat.eq_zero_or_pos r2 with hr2 | hr2
  · subst hr2
    by_cases hb : r1 = b
    · subst hb
      rw [fillRow_ne_col _ _ _ _ _ _ (by omega)]
      rw [fillTable_untouched _ _ _ _ _ _ (by omega),
        fillTable_untouched _ _ _ _ _ _ (by omega)]
    · rw [fillRow_ne_row _ _ _ _ _ _ hb]
      rw [fillTable_untouched _ _ _ _ _ _ (by omega),
        fillTable_untouched _ _ _ _ _ _ (by omega)]
  by_cases hb : r1 = b
  · subst hb
    have hr2e : r2 < e := by omega
    rw [fillRow_col_stable _ _ _ _ _ hr2 (by omega)]
    rw [fillTable_row_stable _ P _ _ _ hr1 (by omega)]
    obtain ⟨B, rfl⟩ : ∃ B, r1 = B + 1 := ⟨r1 - 1, by omega⟩
    rw [fillTable_succ,
      fillRow_col_stable outcomes E (B + 1) (fillTable outcomes B E init_dp) r2 hr2 (by omega)]
    rfl
  · have hr1b : r1 < b := by omega
    rw [fillRow_ne_row _ _ _ _ _ _ hb]
    rw [fillTable_row_stable _ (b - 1) _ _ _ hr1 (by omega),
      fillTable_row_stable _ P _ _ _ hr1 (by omega)]

/-! ## The lossy finite-horizon process and its relation to the table -/

lemma lossyWinWithin_zero (outcomes : List (ℕ × ℕ × ℚ)) (b e : ℕ) :
    lossyWinWithin outcomes 0 b e = if e = 0 then 1 else 0 := rfl

lemma lossyWinWithin_succ (outcomes : List (ℕ × ℕ × ℚ)) (n b e : ℕ) :
    lossyWinWithin outcomes (n + 1) b e =
      if e = 0 then 1
      else if b = 0 then 0
      else (outcomes.map (fun o =>
        if o.1 = 0 ∧ o.2.1 = 0 then 0
        else o.2.2 * lossyWinWithin outcomes n (b - o.2.1) (e - o.1))).sum := rfl

lemma lossyWinWithin_e_zero (outcomes : List (ℕ × ℕ × ℚ)) (n b : ℕ) :
    lossyWinWithin outcomes n b 0 = 1 := by
  cases n <;> simp [lossyWinWithin_zero, lossyWinWithin_succ]

lemma lossyWinWithin_b_zero (outcomes : List (ℕ × ℕ × ℚ)) (n e : ℕ)
    (he : 1 ≤ e) (hn : 1 ≤ n) : lossyWinWithin outcomes n 0 e = 0 := by
  obtain ⟨m, rfl⟩ : ∃ m, n = m + 1 := ⟨n - 1, by omega⟩
  rw [lossyWinWithin_succ]
  have h1 : ¬(e = 0) := by omega
  simp [h1]

/-- One extra unit of fuel changes nothing once the fuel covers `b + e`:
every non-null outcome strictly decreases the total HP. -/
lemma lossyWinWithin_stable_succ (outcomes : List (ℕ × ℕ × ℚ)) :
    ∀ n b e, b + e ≤ n →
      lossyWinWithin outcomes (n + 1) b e = lossyWinWithin outcomes n b e := by
  intro n
  induction n with
  | zero =>
    intro b e h
    obtain ⟨rfl, rfl⟩ : b = 0 ∧ e = 0 := by omega
    simp [lossyWinWithin_zero, lossyWinWithin_succ]
  | succ n ih =>
    intro b e h
    rcases Nat.eq_zero_or_pos e with he | he
    · subst he; rw [lossyWinWithin_e_zero, lossyWinWithin_e_zero]
    rcases Nat.eq_zero_or_pos b with hb | hb
    · subst hb
      rw [lossyWinWithin_b_zero _ _ _ he (by omega),
        lossyWinWithin_b_zero _ _ _ he (by omega)]
    rw [lossyWinWithin_succ, lossyWinWithin_succ]
    have h1 : ¬(e = 0) := by omega
    have h2 : ¬(b = 0) := by omega
    simp only [h1, h2, if_false]
    congr 1
    apply List.map_congr_left
    intro o _
    by_cases hnull : o.1 = 0 ∧ o.2.1 = 0
    · simp [hnull]
    · simp only [hnull, if_false]
      congr 1
      apply ih
      omega

lemma lossyWinWithin_stable (outcomes : List (ℕ × ℕ × ℚ)) (b e : ℕ) :
    ∀ n m, b + e ≤ n → b + e ≤ m →
      lossyWinWithin outcomes n b e = lossyWinWithin outcomes m b e := by
  have key : ∀ k n, b + e ≤ n →
      lossyWinWithin outcomes (n + k) b e = lossyWinWithin outcomes n b e := by
    intro k
    induction k with
    | zero => intro n _; rfl
    | succ k ih =>
      intro n hn
      have : n + (k + 1) = (n + k) + 1 := by omega
      rw [this, lossyWinWithin_stable_succ _ _ _ _ (by omega), ih _ hn]
  intro n m hn hm
  rcases Nat.le_total n m with h | h
  · obtain ⟨k, rfl⟩ : ∃ k, m = n + k := ⟨m - n, by omega⟩
    exact (key k n hn).symm
  · obtain ⟨k, rfl⟩ : ∃ k, n = m + k := ⟨n - m, by omega⟩
    exact key k m hm

/-- Central characterisation: the DP table of the source program computes
exactly the lossy finite-horizon win probability.  The self-referential
read of the cell being filled (for outcomes dealing zero damage to both
sides) yields the not-yet-written value 0, which is precisely the lossy
process's treatment of a null round. -/
lemma fillTable_eq_lossy (outcomes : List (ℕ × ℕ × ℚ)) (P E : ℕ) :
    ∀ b e, b ≤ P → e ≤ E →
      fillTable outcomes P E init_dp b e = lossyWinWithin outcomes (b + e) b e := by
  have main : ∀ n b e, b + e = n → b ≤ P → e ≤ E →
      fillTable outcomes P E init_dp b e = lossyWinWithin outcomes (b + e) b e := by
    intro n
    induction n using Nat.strong_induction_on with
    | _ n ih =>
      intro b e hsum hbP heE
      rcases Nat.eq_zero_or_pos e with he | he
      · subst he
        rw [fillTable_untouched _ _ _ _ _ _ (by omega), lossyWinWithin_e_zero,
          init_dp_apply]
        simp
      rcases Nat.eq_zero_or_pos b with hb | hb
      · subst hb
        rw [fillTable_untouched _ _ _ _ _ _ (by omega),
          lossyWinWithin_b_zero _ _ _ he (by omega), init_dp_apply]
        simp
        omega
      rw [fillTable_master _ _ _ _ _ hb hbP he heE]
      obtain ⟨m, hm⟩ : ∃ m, b + e = m + 1 := ⟨b + e - 1, by omega⟩
      rw [hm, lossyWinWithin_succ]
      have hb0 : ¬(e = 0) := by omega
      have hb1 : ¬(b = 0) := by omega
      simp only [hb0, hb1, if_false]
      unfold cellProb
      congr 1
      apply List.map_congr_left
      intro o _
      by_cases hnull : o.1 = 0 ∧ o.2.1 = 0
      · obtain ⟨h1, h2⟩ := hnull
        simp only [h1, h2, Nat.sub_zero, and_self, if_true]
        rw [table_before_self _ _ _ _ hb he, init_dp_apply]
        simp
        omega
      · simp only [hnull, if_false]
        congr 1
        have hr : ¬(b - o.2.1 = b ∧ e - o.1 = e) := by
          intro hcon
          apply hnull
          omega
        rw [table_before_read outcomes P E b e hb hbP he heE _ _ (by omega) (by omega) hr]
        rw [ih ((b - o.2.1) + (e - o.1)) (by omega) _ _ rfl (by omega) (by omega)]
        exact lossyWinWithin_stable _ _ _ _ _ (by omega) (by omega)
  intro b e
  exact main (b + e) b e rfl

/-- The function `compute_win_chance` in terms of the lossy process. -/
lemma compute_win_chance_eq_lossy (player_hp enemy_hp : ℕ) (player_hit : ℤ)
    (player_dmg : ℕ) (enemy_hit : ℤ) (enemy_dmg : ℕ) (doubling : String) :
    compute_win_chance player_hp enemy_hp player_hit player_dmg enemy_hit
        enemy_dmg doubling =
      lossyWinWithin
        (round_outcomes player_dmg enemy_dmg ((player_hit : ℚ) / 100)
          ((enemy_hit : ℚ) / 100) doubling)
        (player_hp + enemy_hp) player_hp enemy_hp := by
  unfold compute_win_chance
  exact fillTable_eq_lossy _ _ _ _ _ le_rfl le_rfl

/-! ## Order properties of the lossy process -/

lemma lossyWinWithin_nonneg (outcomes : List (ℕ × ℕ × ℚ))
    (hp : ∀ o ∈ outcomes, 0 ≤ o.2.2) :
    ∀ n b e, 0 ≤ lossyWinWithin outcomes n b e := by
  intro n
  induction n with
  | zero =>
    intro b e
    rw [lossyWinWithin_zero]
    split <;> norm_num
  | succ n ih =>
    intro b e
    rw [lossyWinWithin_succ]
    split
    · norm_num
    split
    · norm_num
    apply List.sum_nonneg
    intro x hx
    obtain ⟨o, ho, rfl⟩ := List.mem_map.mp hx
    by_cases hnull : o.1 = 0 ∧ o.2.1 = 0
    · simp [hnull]
    · simp only [hnull, if_false]
      exact mul_nonneg (hp o ho) (ih _ _)

lemma lossyWinWithin_le_one (outcomes : List (ℕ × ℕ × ℚ))
    (hp : ∀ o ∈ outcomes, 0 ≤ o.2.2)
    (hs : (outcomes.map (fun o => o.2.2)).sum ≤ 1) :
    ∀ n b e, lossyWinWithin outcomes n b e ≤ 1 := by
  intro n
  induction n with
  | zero =>
    intro b e
    rw [lossyWinWithin_zero]
    split <;> norm_num
  | succ n ih =>
    intro b e
    rw [lossyWinWithin_succ]
    split
    · norm_num
    split
    · norm_num
    refine le_trans (le_trans (List.sum_le_sum ?_) hs) le_rfl
    intro o ho
    by_cases hnull : o.1 = 0 ∧ o.2.1 = 0
    · simp only [hnull, if_true]
      exact hp o ho
    · simp only [hnull, if_false]
      calc o.2.2 * lossyWinWithin outcomes n (b - o.2.1) (e - o.1)
          ≤ o.2.2 * 1 := by
            exact mul_le_mul_of_nonneg_left (ih _ _) (hp o ho)
        _ = o.2.2 := mul_one _

/-- More player HP never hurts (for the lossy process, hence for the code). -/
lemma lossyWinWithin_mono_b (outcomes : List (ℕ × ℕ × ℚ))
    (hp : ∀ o ∈ outcomes, 0 ≤ o.2.2) :
    ∀ n b b' e, b ≤ b' →
      lossyWinWithin outcomes n b e ≤ lossyWinWithin outcomes n b' e := by
  intro n
  induction n with
  | zero => intro b b' e _; rw [lossyWinWithin_zero, lossyWinWithin_zero]
  | succ n ih =>
    intro b b' e hbb
    rcases Nat.eq_zero_or_pos e with he | he
    · subst he; rw [lossyWinWithin_e_zero, lossyWinWithin_e_zero]
    rcases Nat.eq_zero_or_pos b with hb | hb
    · subst hb
      rw [lossyWinWithin_b_zero _ _ _ he (by omega)]
      exact lossyWinWithin_nonneg outcomes hp _ _ _
    have h1 : ¬(e = 0) := by omega
    have h2 : ¬(b = 0) := by omega
    have h2' : ¬(b' = 0) := by omega
    rw [lossyWinWithin_succ, lossyWinWithin_succ]
    simp only [h1, h2, h2', if_false]
    apply List.sum_le_sum
    intro o ho
    by_cases hnull : o.1 = 0 ∧ o.2.1 = 0
    · simp [hnull]
    · simp only [hnull, if_false]
      exact mul_le_mul_of_nonneg_left (ih _ _ _ (by omega)) (hp o ho)

/-- More enemy HP never helps (for the lossy process, hence for the code). -/
lemma lossyWinWithin_anti_e (outcomes : List (ℕ × ℕ × ℚ))
    (hp : ∀ o ∈ outcomes, 0 ≤ o.2.2)
    (hs : (outcomes.map (fun o => o.2.2)).sum ≤ 1) :
    ∀ n b e e', e ≤ e' →
      lossyWinWithin outcomes n b e' ≤ lossyWinWithin outcomes n b e := by
  intro n
  induction n with
  | zero =>
    intro b e e' hee
    rw [lossyWinWithin_zero, lossyWinWithin_zero]
    rcases Nat.eq_zero_or_pos e with he | he
    · subst he
      split <;> norm_num
    · have h1 : ¬(e = 0) := by omega
      have h2 : ¬(e' = 0) := by omega
      simp [h1, h2]
  | succ n ih =>
    intro b e e' hee
    rcases Nat.eq_zero_or_pos e with he | he
    · subst he
      rw [lossyWinWithin_e_zero]
      exact lossyWinWithin_le_one outcomes hp hs _ _ _
    rcases Nat.eq_zero_or_pos b with hb | hb
    · subst hb
      rw [lossyWinWithin_b_zero _ _ _ he (by omega),
        lossyWinWithin_b_zero _ _ _ (by omega) (by omega)]
    have h1 : ¬(e = 0) := by omega
    have h1' : ¬(e' = 0) := by omega
    have h2 : ¬(b = 0) := by omega
    rw [lossyWinWithin_succ, lossyWinWithin_succ]
    simp only [h1, h1', h2, if_false]
    apply List.sum_le_sum
    intro o ho
    by_cases hnull : o.1 = 0 ∧ o.2.1 = 0
    · simp [hnull]
    · simp only [hnull, if_false]
      exact mul_le_mul_of_nonneg_left (ih _ _ _ (by omega)) (hp o ho)

/-! ## Fuel monotonicity of the true finite-horizon win probability -/

lemma winWithin_zero (outcomes : List (ℕ × ℕ × ℚ)) (b e : ℕ) :
    winWithin outcomes 0 b e = if e = 0 then 1 else 0 := rfl

lemma winWithin_succ (outcomes : List (ℕ × ℕ × ℚ)) (n b e : ℕ) :
    winWithin outcomes (n + 1) b e =
      if e = 0 then 1
      else if b = 0 then 0
      else (outcomes.map
        (fun o => o.2.2 * winWithin outcomes n (b - o.2.1) (e - o.1))).sum := rfl

lemma winWithin_nonneg (outcomes : List (ℕ × ℕ × ℚ))
    (hp : ∀ o ∈ outcomes, 0 ≤ o.2.2) :
    ∀ n b e, 0 ≤ winWithin outcomes n b e := by
  intro n
  induction n with
  | zero =>
    intro b e
    rw [winWithin_zero]
    split <;> norm_num
  | succ n ih =>
    intro b e
    rw [winWithin_succ]
    split
    · norm_num
    split
    · norm_num
    apply List.sum_nonneg
    intro x hx
    obtain ⟨o, ho, rfl⟩ := List.mem_map.mp hx
    exact mul_nonneg (hp o ho) (ih _ _)

/-- The event "player has won within `n` rounds" grows with `n`, so each
`winWithin outcomes n` is a lower bound for the spec's win probability over
all (unbounded) sequences of outcomes. -/
lemma winWithin_fuel_mono (outcomes : List (ℕ × ℕ × ℚ))
    (hp : ∀ o ∈ outcomes, 0 ≤ o.2.2) :
    ∀ n b e, winWithin outcomes n b e ≤ winWithin outcomes (n + 1) b e := by
  intro n
  induction n with
  | zero =>
    intro b e
    rw [winWithin_zero, winWithin_succ]
    rcases Nat.eq_zero_or_pos e with he | he
    · simp [he]
    have h1 : ¬(e = 0) := by omega
    simp only [h1, if_false]
    split
    · norm_num
    apply List.sum_nonneg
    intro x hx
    obtain ⟨o, ho, rfl⟩ := List.mem_map.mp hx
    refine mul_nonneg (hp o ho) ?_
    rw [winWithin_zero]
    split <;> norm_num
  | succ n ih =>
    intro b e
    rw [winWithin_succ, winWithin_succ]
    split
    · norm_num
    split
    · norm_num
    apply List.sum_le_sum
    intro o ho
    exact mul_le_mul_of_nonneg_left (ih _ _) (hp o ho)

/-! ## Probability facts about the outcome sets -/

lemma outcomes_enemy_prob_nonneg (player_dmg enemy_dmg : ℕ) (p_phit p_emhit : ℚ)
    (hp0 : 0 ≤ p_phit) (hp1 : p_phit ≤ 1) (he0 : 0 ≤ p_emhit) (he1 : p_emhit ≤ 1) :
    ∀ o ∈ outcomes_enemy player_dmg enemy_dmg p_phit p_emhit, 0 ≤ o.2.2 := by
  intro o ho
  have hpm : (0:ℚ) ≤ 1 - p_phit := by linarith
  have hem : (0:ℚ) ≤ 1 - p_emhit := by linarith
  simp only [outcomes_enemy, List.mem_cons, List.not_mem_nil, or_false] at ho
  rcases ho with rfl | rfl | rfl | rfl | rfl | rfl <;>
    · simp only []
      nlinarith [mul_nonneg he0 he0, mul_nonneg he0 hem, mul_nonneg hem hem,
        mul_nonneg hp0 he0, mul_nonneg hp0 hem, mul_nonneg hpm he0, mul_nonneg hpm hem]

lemma outcomes_player_prob_nonneg (player_dmg enemy_dmg : ℕ) (p_phit p_emhit : ℚ)
    (hp0 : 0 ≤ p_phit) (hp1 : p_phit ≤ 1) (he0 : 0 ≤ p_emhit) (he1 : p_emhit ≤ 1) :
    ∀ o ∈ outcomes_player player_dmg enemy_dmg p_phit p_emhit, 0 ≤ o.2.2 := by
  intro o ho
  have hpm : (0:ℚ) ≤ 1 - p_phit := by linarith
  have hem : (0:ℚ) ≤ 1 - p_emhit := by linarith
  simp only [outcomes_player, List.mem_cons, List.not_mem_nil, or_false] at ho
  rcases ho with rfl | rfl | rfl | rfl | rfl | rfl <;>
    · simp only []
      nlinarith [mul_nonneg hp0 hp0, mul_nonneg hp0 hpm, mul_nonneg hpm hpm,
        mul_nonneg hp0 he0, mul_nonneg hp0 hem, mul_nonneg hpm he0, mul_nonneg hpm hem]

lemma outcomes_none_prob_nonneg (player_dmg enemy_dmg : ℕ) (p_phit p_emhit : ℚ)
    (hp0 : 0 ≤ p_phit) (hp1 : p_phit ≤ 1) (he0 : 0 ≤ p_emhit) (he1 : p_emhit ≤ 1) :
    ∀ o ∈ outcomes_none player_dmg enemy_dmg p_phit p_emhit, 0 ≤ o.2.2 := by
  intro o ho
  have hpm : (0:ℚ) ≤ 1 - p_phit := by linarith
  have hem : (0:ℚ) ≤ 1 - p_emhit := by linarith
  simp only [outcomes_none, List.mem_cons, List.not_mem_nil, or_false] at ho
  rcases ho with rfl | rfl | rfl | rfl <;>
    · simp only []
      nlinarith [mul_nonneg hp0 he0, mul_nonneg hp0 hem, mul_nonneg hpm he0,
        mul_nonneg hpm hem]

lemma round_outcomes_prob_nonneg (player_dmg enemy_dmg : ℕ) (p_phit p_emhit : ℚ)
    (doubling : String)
    (hp0 : 0 ≤ p_phit) (hp1 : p_phit ≤ 1) (he0 : 0 ≤ p_emhit) (he1 : p_emhit ≤ 1) :
    ∀ o ∈ round_outcomes player_dmg enemy_dmg p_phit p_emhit doubling, 0 ≤ o.2.2 := by
  unfold round_outcomes
  split
  · exact outcomes_enemy_prob_nonneg _ _ _ _ hp0 hp1 he0 he1
  split
  · exact outcomes_player_prob_nonneg _ _ _ _ hp0 hp1 he0 he1
  · exact outcomes_none_prob_nonneg _ _ _ _ hp0 hp1 he0 he1

lemma outcomes_enemy_prob_sum (player_dmg enemy_dmg : ℕ) (p_phit p_emhit : ℚ) :
    ((outcomes_enemy player_dmg enemy_dmg p_phit p_emhit).map
      (fun o => o.2.2)).sum = 1 := by
  simp only [outcomes_enemy, List.map_cons, List.map_nil, List.sum_cons, List.sum_nil]
  ring

lemma outcomes_player_prob_sum (player_dmg enemy_dmg : ℕ) (p_phit p_emhit : ℚ) :
    ((outcomes_player player_dmg enemy_dmg p_phit p_emhit).map
      (fun o => o.2.2)).sum = 1 := by
  simp only [outcomes_player, List.map_cons, List.map_nil, List.sum_cons, List.sum_nil]
  ring

lemma outcomes_none_prob_sum (player_dmg enemy_dmg : ℕ) (p_phit p_emhit : ℚ) :
    ((outcomes_none player_dmg enemy_dmg p_phit p_emhit).map
      (fun o => o.2.2)).sum = 1 := by
  simp only [outcomes_none, List.map_cons, List.map_nil, List.sum_cons, List.sum_nil]
  ring

/-- The outcome probabilities sum to exactly 1 for every doubling mode —
with no hypotheses at all: the sum is the polynomial identity
`(ph + (1-ph)) * (eh + (1-eh))^k = 1`. -/
lemma round_outcomes_prob_sum (player_dmg enemy_dmg : ℕ) (p_phit p_emhit : ℚ)
    (doubling : String) :
    ((round_outcomes player_dmg enemy_dmg p_phit p_emhit doubling).map
      (fun o => o.2.2)).sum = 1 := by
  unfold round_outcomes
  split
  · exact outcomes_enemy_prob_sum _ _ _ _
  split
  · exact outcomes_player_prob_sum _ _ _ _
  · exact outcomes_none_prob_sum _ _ _ _

/-- Each individual outcome probability is at most 1 (given valid hit
probabilities): it is bounded by the full sum, all of whose terms are
non-negative. -/
lemma round_outcomes_prob_le_one (player_dmg enemy_dmg : ℕ) (p_phit p_emhit : ℚ)
    (doubling : String)
    (hp0 : 0 ≤ p_phit) (hp1 : p_phit ≤ 1) (he0 : 0 ≤ p_emhit) (he1 : p_emhit ≤ 1) :
    ∀ o ∈ round_outcomes player_dmg enemy_dmg p_phit p_emhit doubling, o.2.2 ≤ 1 := by
  intro o ho
  have hnn := round_outcomes_prob_nonneg player_dmg enemy_dmg p_phit p_emhit
    doubling hp0 hp1 he0 he1
  have hsum := round_outcomes_prob_sum player_dmg enemy_dmg p_phit p_emhit doubling
  calc o.2.2
      ≤ ((round_outcomes player_dmg enemy_dmg p_phit p_emhit doubling).map
          (fun o => o.2.2)).sum := by
        apply List.single_le_sum
        · intro x hx
          obtain ⟨o', ho', rfl⟩ := List.mem_map.mp hx
          exact hnn o' ho'
        · exact List.mem_map.mpr ⟨o, ho, rfl⟩
    _ = 1 := hsum

/-- Hit probabilities derived from hit chances in `[0, 100]` lie in `[0, 1]`. -/
lemma hit_prob_bounds (h : ℤ) (h0 : 0 ≤ h) (h100 : h ≤ 100) :
    0 ≤ (h : ℚ) / 100 ∧ (h : ℚ) / 100 ≤ 1 := by
  constructor
  · apply div_nonneg _ (by norm_num)
    exact_mod_cast h0
  · rw [div_le_one (by norm_num)]
    exact_mod_cast h100

/-! ## Degenerate cases -/

/-- If the player deals no damage with any outcome, the enemy's HP never
moves, so from any state with a live enemy the lossy win probability is 0.
(This matches the code: with zero player damage the enemy column index
never decreases.) -/
lemma lossyWinWithin_eq_zero_of_no_player_dmg (outcomes : List (ℕ × ℕ × ℚ))
    (h : ∀ o ∈ outcomes, o.1 = 0) :
    ∀ n b e, 1 ≤ e → lossyWinWithin outcomes n b e = 0 := by
  intro n
  induction n with
  | zero =>
    intro b e he
    rw [lossyWinWithin_zero]
    simp
    omega
  | succ n ih =>
    intro b e he
    rcases Nat.eq_zero_or_pos b with rfl | hb
    · exact lossyWinWithin_b_zero _ _ _ he (by omega)
    have h1 : ¬(e = 0) := by omega
    have h2 : ¬(b = 0) := by omega
    rw [lossyWinWithin_succ]
    simp only [h1, h2, if_false]
    have : ∀ o ∈ outcomes,
        (if o.1 = 0 ∧ o.2.1 = 0 then 0
         else o.2.2 * lossyWinWithin outcomes n (b - o.2.1) (e - o.1)) = (0:ℚ) := by
      intro o ho
      by_cases hnull : o.1 = 0 ∧ o.2.1 = 0
      · simp [hnull]
      · simp only [hnull, if_false]
        rw [h o ho, Nat.sub_zero, ih _ _ (by omega), mul_zero]
    rw [List.map_congr_left this]
    simp

/-- If no outcome damages the player, and all the probability mass lies on
outcomes that do damage the enemy, the lossy win probability from a live
player state is 1 once the fuel covers the enemy's HP. -/
lemma lossyWinWithin_eq_one (outcomes : List (ℕ × ℕ × ℚ))
    (h1 : ∀ o ∈ outcomes, o.2.1 = 0)
    (h2 : ∀ o ∈ outcomes, o.2.2 ≠ 0 → o.1 ≠ 0)
    (h3 : (outcomes.map (fun o => o.2.2)).sum = 1) :
    ∀ n b e, 1 ≤ b → e ≤ n → lossyWinWithin outcomes n b e = 1 := by
  intro n
  induction n with
  | zero =>
    intro b e hb he
    obtain rfl : e = 0 := by omega
    exact lossyWinWithin_e_zero _ _ _
  | succ n ih =>
    intro b e hb he
    rcases Nat.eq_zero_or_pos e with he0 | he0
    · subst he0; exact lossyWinWithin_e_zero _ _ _
    have hne : ¬(e = 0) := by omega
    have hnb : ¬(b = 0) := by omega
    rw [lossyWinWithin_succ]
    simp only [hne, hnb, if_false]
    have : ∀ o ∈ outcomes,
        (if o.1 = 0 ∧ o.2.1 = 0 then 0
         else o.2.2 * lossyWinWithin outcomes n (b - o.2.1) (e - o.1)) = o.2.2 := by
      intro o ho
      by_cases hz : o.2.2 = 0
      · by_cases hnull : o.1 = 0 ∧ o.2.1 = 0
        · simp [hnull, hz]
        · simp [hnull, hz]
      · have ho1 : o.1 ≠ 0 := h2 o ho hz
        have hnull : ¬(o.1 = 0 ∧ o.2.1 = 0) := by tauto
        simp only [hnull, if_false]
        rw [h1 o ho, Nat.sub_zero, ih _ _ hb (by omega), mul_one]
    rw [List.map_congr_left this, h3]

/-! ## Dominance between outcome sets -/

/-- Pointwise dominance: if two outcome lists pair up with equal
probabilities, equal damage to the player, and the second list dealing at
least as much damage to the enemy, then the second's lossy win probability
is at least the first's. -/
lemma lossyWinWithin_mono_outcomes (O O' : List (ℕ × ℕ × ℚ))
    (hp' : ∀ o ∈ O', 0 ≤ o.2.2)
    (hs' : (O'.map (fun o => o.2.2)).sum ≤ 1)
    (hrel : List.Forall₂ (fun o o' => o.2.2 = o'.2.2 ∧ o.2.1 = o'.2.1 ∧ o.1 ≤ o'.1) O O') :
    ∀ n b e, lossyWinWithin O n b e ≤ lossyWinWithin O' n b e := by
  intro n
  induction n with
  | zero => intro b e; rw [lossyWinWithin_zero, lossyWinWithin_zero]
  | succ n ih =>
    intro b e
    rcases Nat.eq_zero_or_pos e with he | he
    · subst he; rw [lossyWinWithin_e_zero, lossyWinWithin_e_zero]
    rcases Nat.eq_zero_or_pos b with hb | hb
    · subst hb
      rw [lossyWinWithin_b_zero _ _ _ he (by omega),
        lossyWinWithin_b_zero _ _ _ he (by omega)]
    have hne : ¬(e = 0) := by omega
    have hnb : ¬(b = 0) := by omega
    rw [lossyWinWithin_succ, lossyWinWithin_succ]
    simp only [hne, hnb, if_false]
    have aux : ∀ (l l' : List (ℕ × ℕ × ℚ)),
        List.Forall₂ (fun o o' => o.2.2 = o'.2.2 ∧ o.2.1 = o'.2.1 ∧ o.1 ≤ o'.1) l l' →
        (∀ o ∈ l', 0 ≤ o.2.2) →
        (l.map (fun o => if o.1 = 0 ∧ o.2.1 = 0 then 0
          else o.2.2 * lossyWinWithin O n (b - o.2.1) (e - o.1))).sum ≤
        (l'.map (fun o => if o.1 = 0 ∧ o.2.1 = 0 then 0
          else o.2.2 * lossyWinWithin O' n (b - o.2.1) (e - o.1))).sum := by
      intro l l' h
      induction h with
      | nil => intro _; simp
      | @cons o o' tl tl' hpair htail ihtail =>
        intro hnn
        simp only [List.map_cons, List.sum_cons]
        apply add_le_add
        · obtain ⟨hpp, hdd, hbb⟩ := hpair
          by_cases hnull' : o'.1 = 0 ∧ o'.2.1 = 0
          · have hnull : o.1 = 0 ∧ o.2.1 = 0 := by omega
            simp [hnull, hnull']
          · by_cases hnull : o.1 = 0 ∧ o.2.1 = 0
            · simp only [hnull, if_true, hnull', if_false]
              exact mul_nonneg (hnn o' (by simp))
                (lossyWinWithin_nonneg O' hp' _ _ _)
            · simp only [hnull, hnull', if_false]
              rw [hpp, hdd]
              apply mul_le_mul_of_nonneg_left _ (hnn o' (by simp))
              calc lossyWinWithin O n (b - o'.2.1) (e - o.1)
                  ≤ lossyWinWithin O' n (b - o'.2.1) (e - o.1) := ih _ _
                _ ≤ lossyWinWithin O' n (b - o'.2.1) (e - o'.1) := by
                    apply lossyWinWithin_anti_e O' hp' hs'
                    omega
        · exact ihtail (fun o ho => hnn o (by simp [ho]))
    exact aux O O' hrel hp'

/-! ## Monotonicity in the player hit probability -/

/-- Raising the player's hit probability never lowers the lossy win
probability ("none" outcome shape). -/
lemma lossy_none_mono_ph (pd ed : ℕ) (ph ph' eh : ℚ)
    (h0 : 0 ≤ ph) (h1 : ph ≤ ph') (h2 : ph' ≤ 1) (he0 : 0 ≤ eh) (he1 : eh ≤ 1) :
    ∀ n b e, lossyWinWithin (outcomes_none pd ed ph eh) n b e ≤
      lossyWinWithin (outcomes_none pd ed ph' eh) n b e := by
  have h0' : 0 ≤ ph' := le_trans h0 h1
  have hp1 : ph ≤ 1 := le_trans h1 h2
  have hpm : (0:ℚ) ≤ 1 - ph := by linarith
  have hpm' : (0:ℚ) ≤ 1 - ph' := by linarith
  have hem : (0:ℚ) ≤ 1 - eh := by linarith
  have hpp' : (0:ℚ) ≤ ph' - ph := by linarith
  have hnn' := outcomes_none_prob_nonneg pd ed ph' eh h0' h2 he0 he1
  have hs' := le_of_eq (outcomes_none_prob_sum pd ed ph' eh)
  simp only [outcomes_none] at hnn' hs'
  simp only [outcomes_none]
  intro n
  induction n with
  | zero => intro b e; rw [lossyWinWithin_zero, lossyWinWithin_zero]
  | succ n ih =>
    intro b e
    rcases Nat.eq_zero_or_pos e with rfl | he
    · rw [lossyWinWithin_e_zero, lossyWinWithin_e_zero]
    rcases Nat.eq_zero_or_pos b with rfl | hb
    · rw [lossyWinWithin_b_zero _ _ _ he (by omega),
        lossyWinWithin_b_zero _ _ _ he (by omega)]
    have hne : ¬(e = 0) := by omega
    have hnb : ¬(b = 0) := by omega
    rw [lossyWinWithin_succ, lossyWinWithin_succ]
    simp only [hne, hnb, if_false, List.map_cons, List.map_nil, List.sum_cons,
      List.sum_nil]
    by_cases hpd : pd = 0
    · by_cases hed : ed = 0
      · subst hpd; subst hed
        simp
      · subst hpd
        simp only [hed, and_true, and_false, true_and, false_and, if_true, if_false,
          eq_self_iff_true, Nat.sub_zero, and_self, add_zero, zero_add]
        have hx := ih (b - ed) e
        nlinarith [mul_le_mul_of_nonneg_left hx (mul_nonneg h0 he0),
          mul_le_mul_of_nonneg_left hx (mul_nonneg hpm he0),
          mul_nonneg (mul_nonneg hpp' he0)
            (lossyWinWithin_nonneg _ hnn' n (b - ed) e)]
    · by_cases hed : ed = 0
      · subst hed
        simp only [hpd, and_true, and_false, true_and, false_and, if_true, if_false,
          eq_self_iff_true, Nat.sub_zero, and_self, add_zero, zero_add]
        have hx := ih b (e - pd)
        have hxnn := lossyWinWithin_nonneg _
          (fun o ho => by
            have := hnn' o ho
            exact this) n b (e - pd)
        nlinarith [mul_le_mul h1 hx (lossyWinWithin_nonneg _
            (outcomes_none_prob_nonneg pd 0 ph eh h0 hp1 he0 he1 |> fun hpo => by
              simp only [outcomes_none] at hpo; exact hpo) n b (e - pd)) h0',
          mul_nonneg he0 hem]
      · simp only [hpd, hed, and_true, and_false, true_and, false_and, if_true,
          if_false, eq_self_iff_true, Nat.sub_zero, and_self, add_zero, zero_add]
        have hx1 := ih (b - ed) (e - pd)
        have hx2 := ih b (e - pd)
        have hx3 := ih (b - ed) e
        have hanti := lossyWinWithin_anti_e _ hnn' hs' n (b - ed) (e - pd) e
          (by omega)
        have hx2nn := lossyWinWithin_nonneg _ hnn' n b (e - pd)
        nlinarith [mul_le_mul_of_nonneg_left hx1 (mul_nonneg h0 he0),
          mul_le_mul_of_nonneg_left hx2 (mul_nonneg h0 hem),
          mul_le_mul_of_nonneg_left hx3 (mul_nonneg hpm he0),
          mul_nonneg (mul_nonneg hpp' he0) (sub_nonneg.mpr hanti),
          mul_nonneg (mul_nonneg hpp' hem) hx2nn]

/-- Raising the player's hit probability never lowers the lossy win
probability ("enemy doubles" outcome shape). -/
lemma lossy_enemy_mono_ph (pd ed : ℕ) (ph ph' eh : ℚ)
    (h0 : 0 ≤ ph) (h1 : ph ≤ ph') (h2 : ph' ≤ 1) (he0 : 0 ≤ eh) (he1 : eh ≤ 1) :
    ∀ n b e, lossyWinWithin (outcomes_enemy pd ed ph eh) n b e ≤
      lossyWinWithin (outcomes_enemy pd ed ph' eh) n b e := by
  have h0' : 0 ≤ ph' := le_trans h0 h1
  have hp1 : ph ≤ 1 := le_trans h1 h2
  have hpm : (0:ℚ) ≤ 1 - ph := by linarith
  have hpm' : (0:ℚ) ≤ 1 - ph' := by linarith
  have hem : (0:ℚ) ≤ 1 - eh := by linarith
  have hpp' : (0:ℚ) ≤ ph' - ph := by linarith
  have hnn' := outcomes_enemy_prob_nonneg pd ed ph' eh h0' h2 he0 he1
  have hs' := le_of_eq (outcomes_enemy_prob_sum pd ed ph' eh)
  simp only [outcomes_enemy] at hnn' hs'
  simp only [outcomes_enemy]
  intro n
  induction n with
  | zero => intro b e; rw [lossyWinWithin_zero, lossyWinWithin_zero]
  | succ n ih =>
    intro b e
    rcases Nat.eq_zero_or_pos e with rfl | he
    · rw [lossyWinWithin_e_zero, lossyWinWithin_e_zero]
    rcases Nat.eq_zero_or_pos b with rfl | hb
    · rw [lossyWinWithin_b_zero _ _ _ he (by omega),
        lossyWinWithin_b_zero _ _ _ he (by omega)]
    have hne : ¬(e = 0) := by omega
    have hnb : ¬(b = 0) := by omega
    rw [lossyWinWithin_succ, lossyWinWithin_succ]
    simp only [hne, hnb, if_false, List.map_cons, List.map_nil, List.sum_cons,
      List.sum_nil]
    by_cases hpd : pd = 0
    · by_cases hed : ed = 0
      · subst hpd; subst hed
        simp
      · subst hpd
        have h2ed : ¬(2 * ed = 0) := by omega
        simp only [hed, h2ed, and_true, and_false, true_and, false_and, if_true,
          if_false, eq_self_iff_true, Nat.sub_zero, and_self, add_zero, zero_add]
        have hy4 := ih (b - 2 * ed) e
        have hy5 := ih (b - ed) e
        nlinarith [mul_le_mul_of_nonneg_left hy4
            (mul_nonneg (mul_nonneg h0 he0) he0),
          mul_le_mul_of_nonneg_left hy5
            (mul_nonneg h0 (mul_nonneg (mul_nonneg (by norm_num : (0:ℚ) ≤ 2) he0) hem)),
          mul_le_mul_of_nonneg_left hy4
            (mul_nonneg (mul_nonneg hpm he0) he0),
          mul_le_mul_of_nonneg_left hy5
            (mul_nonneg hpm (mul_nonneg (mul_nonneg (by norm_num : (0:ℚ) ≤ 2) he0) hem))]
    · by_cases hed : ed = 0
      · subst hed
        simp only [hpd, Nat.mul_zero, and_true, and_false, true_and, false_and,
          if_true, if_false, eq_self_iff_true, Nat.sub_zero, and_self, add_zero,
          zero_add]
        have hx := ih b (e - pd)
        have hxnn : 0 ≤ lossyWinWithin
            [(pd, 0, ph * eh * eh), (pd, 0, ph * (2 * eh * (1 - eh))),
             (pd, 0, ph * (1 - eh) * (1 - eh)), (0, 0, (1 - ph) * eh * eh),
             (0, 0, (1 - ph) * (2 * eh * (1 - eh))),
             (0, 0, (1 - ph) * (1 - eh) * (1 - eh))] n b (e - pd) := by
          apply lossyWinWithin_nonneg
          have := outcomes_enemy_prob_nonneg pd 0 ph eh h0 hp1 he0 he1
          simp only [outcomes_enemy, Nat.mul_zero] at this
          exact this
        nlinarith [mul_le_mul h1 hx hxnn h0', mul_nonneg he0 hem,
          mul_nonneg he0 he0, mul_nonneg hem hem]
      · have h2ed : ¬(2 * ed = 0) := by omega
        simp only [hpd, hed, h2ed, and_true, and_false, true_and, false_and,
          if_true, if_false, eq_self_iff_true, Nat.sub_zero, and_self, add_zero,
          zero_add]
        have hy1 := ih (b - 2 * ed) (e - pd)
        have hy2 := ih (b - ed) (e - pd)
        have hy3 := ih b (e - pd)
        have hy4 := ih (b - 2 * ed) e
        have hy5 := ih (b - ed) e
        have hanti1 := lossyWinWithin_anti_e _ hnn' hs' n (b - 2 * ed) (e - pd) e
          (by omega)
        have hanti2 := lossyWinWithin_anti_e _ hnn' hs' n (b - ed) (e - pd) e
          (by omega)
        have hy3nn := lossyWinWithin_nonneg _ hnn' n b (e - pd)
        nlinarith [mul_le_mul_of_nonneg_left hy1
            (mul_nonneg (mul_nonneg h0 he0) he0),
          mul_le_mul_of_nonneg_left hy2
            (mul_nonneg h0 (mul_nonneg (mul_nonneg (by norm_num : (0:ℚ) ≤ 2) he0) hem)),
          mul_le_mul_of_nonneg_left hy3
            (mul_nonneg (mul_nonneg h0 hem) hem),
          mul_le_mul_of_nonneg_left hy4
            (mul_nonneg (mul_nonneg hpm he0) he0),
          mul_le_mul_of_nonneg_left hy5
            (mul_nonneg hpm (mul_nonneg (mul_nonneg (by norm_num : (0:ℚ) ≤ 2) he0) hem)),
          mul_nonneg (mul_nonneg hpp' (mul_nonneg he0 he0)) (sub_nonneg.mpr hanti1),
          mul_nonneg (mul_nonneg hpp'
            (mul_nonneg (mul_nonneg (by norm_num : (0:ℚ) ≤ 2) he0) hem))
            (sub_nonneg.mpr hanti2),
          mul_nonneg (mul_nonneg hpp' (mul_nonneg hem hem)) hy3nn]

/-- Raising the player's hit probability never lowers the lossy win
probability ("player doubles" outcome shape). -/
lemma lossy_player_mono_ph (pd ed : ℕ) (ph ph' eh : ℚ)
    (h0 : 0 ≤ ph) (h1 : ph ≤ ph') (h2 : ph' ≤ 1) (he0 : 0 ≤ eh) (he1 : eh ≤ 1) :
    ∀ n b e, lossyWinWithin (outcomes_player pd ed ph eh) n b e ≤
      lossyWinWithin (outcomes_player pd ed ph' eh) n b e := by
  have h0' : 0 ≤ ph' := le_trans h0 h1
  have hp1 : ph ≤ 1 := le_trans h1 h2
  have hpm : (0:ℚ) ≤ 1 - ph := by linarith
  have hpm' : (0:ℚ) ≤ 1 - ph' := by linarith
  have hem : (0:ℚ) ≤ 1 - eh := by linarith
  have hpp' : (0:ℚ) ≤ ph' - ph := by linarith
  have htwo : (0:ℚ) ≤ 2 := by norm_num
  have hnn' := outcomes_player_prob_nonneg pd ed ph' eh h0' h2 he0 he1
  have hs' := le_of_eq (outcomes_player_prob_sum pd ed ph' eh)
  simp only [outcomes_player] at hnn' hs'
  simp only [outcomes_player]
  intro n
  induction n with
  | zero => intro b e; rw [lossyWinWithin_zero, lossyWinWithin_zero]
  | succ n ih =>
    intro b e
    rcases Nat.eq_zero_or_pos e with rfl | he
    · rw [lossyWinWithin_e_zero, lossyWinWithin_e_zero]
    rcases Nat.eq_zero_or_pos b with rfl | hb
    · rw [lossyWinWithin_b_zero _ _ _ he (by omega),
        lossyWinWithin_b_zero _ _ _ he (by omega)]
    have hne : ¬(e = 0) := by omega
    have hnb : ¬(b = 0) := by omega
    rw [lossyWinWithin_succ, lossyWinWithin_succ]
    simp only [hne, hnb, if_false, List.map_cons, List.map_nil, List.sum_cons,
      List.sum_nil]
    by_cases hpd : pd = 0
    · by_cases hed : ed = 0
      · subst hpd; subst hed
        simp
      · subst hpd
        simp only [hed, Nat.mul_zero, and_true, and_false, true_and, false_and,
          if_true, if_false, eq_self_iff_true, Nat.sub_zero, and_self, add_zero,
          zero_add]
        have hu := ih (b - ed) e
        nlinarith [mul_le_mul_of_nonneg_left hu
            (mul_nonneg (mul_nonneg h0 h0) he0),
          mul_le_mul_of_nonneg_left hu
            (mul_nonneg (mul_nonneg (mul_nonneg htwo h0) hpm) he0),
          mul_le_mul_of_nonneg_left hu
            (mul_nonneg (mul_nonneg hpm hpm) he0)]
    · have h2pd : ¬(2 * pd = 0) := by omega
      by_cases hed : ed = 0
      · subst hed
        simp only [hpd, h2pd, and_true, and_false, true_and, false_and,
          if_true, if_false, eq_self_iff_true, Nat.sub_zero, and_self, add_zero,
          zero_add]
        have hv1 := ih b (e - 2 * pd)
        have hv2 := ih b (e - pd)
        have hanti := lossyWinWithin_anti_e _ hnn' hs' n b (e - 2 * pd) (e - pd)
          (by omega)
        have hv2nn := lossyWinWithin_nonneg _ hnn' n b (e - pd)
        nlinarith [mul_le_mul_of_nonneg_left hv1
            (mul_nonneg (mul_nonneg h0 h0) he0),
          mul_le_mul_of_nonneg_left hv1
            (mul_nonneg (mul_nonneg h0 h0) hem),
          mul_le_mul_of_nonneg_left hv2
            (mul_nonneg (mul_nonneg (mul_nonneg htwo h0) hpm) he0),
          mul_le_mul_of_nonneg_left hv2
            (mul_nonneg (mul_nonneg (mul_nonneg htwo h0) hpm) hem),
          mul_nonneg (mul_nonneg hpp' (add_nonneg h0 h0'))
            (sub_nonneg.mpr hanti),
          mul_nonneg (mul_nonneg hpp' (show (0:ℚ) ≤ 2 - ph - ph' by linarith))
            hv2nn]
      · simp only [hpd, hed, h2pd, and_true, and_false, true_and, false_and,
          if_true, if_false, eq_self_iff_true, Nat.sub_zero, and_self, add_zero,
          zero_add]
        have hu1 := ih (b - ed) (e - 2 * pd)
        have hu2 := ih (b - ed) (e - pd)
        have hu3 := ih (b - ed) e
        have hu4 := ih b (e - 2 * pd)
        have hu5 := ih b (e - pd)
        have hantia := lossyWinWithin_anti_e _ hnn' hs' n (b - ed) (e - 2 * pd)
          (e - pd) (by omega)
        have hantib := lossyWinWithin_anti_e _ hnn' hs' n b (e - 2 * pd)
          (e - pd) (by omega)
        have hantic := lossyWinWithin_anti_e _ hnn' hs' n (b - ed) (e - pd) e
          (by omega)
        have hu5nn := lossyWinWithin_nonneg _ hnn' n b (e - pd)
        nlinarith [mul_le_mul_of_nonneg_left hu1
            (mul_nonneg (mul_nonneg h0 h0) he0),
          mul_le_mul_of_nonneg_left hu2
            (mul_nonneg (mul_nonneg (mul_nonneg htwo h0) hpm) he0),
          mul_le_mul_of_nonneg_left hu3
            (mul_nonneg (mul_nonneg hpm hpm) he0),
          mul_le_mul_of_nonneg_left hu4
            (mul_nonneg (mul_nonneg h0 h0) hem),
          mul_le_mul_of_nonneg_left hu5
            (mul_nonneg (mul_nonneg (mul_nonneg htwo h0) hpm) hem),
          mul_nonneg (mul_nonneg hpp' (add_nonneg h0 h0'))
            (add_nonneg (mul_nonneg he0 (sub_nonneg.mpr hantia))
              (mul_nonneg hem (sub_nonneg.mpr hantib))),
          mul_nonneg (mul_nonneg hpp' (show (0:ℚ) ≤ 2 - ph - ph' by linarith))
            (add_nonneg (mul_nonneg he0 (sub_nonneg.mpr hantic))
              (mul_nonneg hem hu5nn))]

/-- The outcome lists for a larger player damage dominate those for a
smaller one: same probabilities, same damage to the player, at least as
much damage to the enemy. -/
lemma round_outcomes_forall2_pd (pd pd' ed : ℕ) (ph eh : ℚ) (s : String)
    (hpd : pd ≤ pd') :
    List.Forall₂ (fun o o' => o.2.2 = o'.2.2 ∧ o.2.1 = o'.2.1 ∧ o.1 ≤ o'.1)
      (round_outcomes pd ed ph eh s) (round_outcomes pd' ed ph eh s) := by
  unfold round_outcomes
  split
  · simp only [outcomes_enemy]
    refine List.Forall₂.cons ⟨rfl, rfl, by omega⟩ ?_
    refine List.Forall₂.cons ⟨rfl, rfl, by omega⟩ ?_
    refine List.Forall₂.cons ⟨rfl, rfl, by omega⟩ ?_
    refine List.Forall₂.cons ⟨rfl, rfl, by omega⟩ ?_
    refine List.Forall₂.cons ⟨rfl, rfl, by omega⟩ ?_
    refine List.Forall₂.cons ⟨rfl, rfl, by omega⟩ ?_
    exact List.Forall₂.nil
  split
  · simp only [outcomes_player]
    refine List.Forall₂.cons ⟨rfl, rfl, by omega⟩ ?_
    refine List.Forall₂.cons ⟨rfl, rfl, by omega⟩ ?_
    refine List.Forall₂.cons ⟨rfl, rfl, by omega⟩ ?_
    refine List.Forall₂.cons ⟨rfl, rfl, by omega⟩ ?_
    refine List.Forall₂.cons ⟨rfl, rfl, by omega⟩ ?_
    refine List.Forall₂.cons ⟨rfl, rfl, by omega⟩ ?_
    exact List.Forall₂.nil
  · simp only [outcomes_none]
    refine List.Forall₂.cons ⟨rfl, rfl, by omega⟩ ?_
    refine List.Forall₂.cons ⟨rfl, rfl, by omega⟩ ?_
    refine List.Forall₂.cons ⟨rfl, rfl, by omega⟩ ?_
    refine List.Forall₂.cons ⟨rfl, rfl, by omega⟩ ?_
    exact List.Forall₂.nil

/-! ## Result-level monotonicity lemmas -/

lemma cwc_mono_player_hp (php php' ehp : ℕ) (phit : ℤ) (pd : ℕ) (ehit : ℤ)
    (ed : ℕ) (s : String)
    (hphit0 : 0 ≤ phit) (hphit1 : phit ≤ 100)
    (hehit0 : 0 ≤ ehit) (hehit1 : ehit ≤ 100)
    (h : php ≤ php') :
    compute_win_chance php ehp phit pd ehit ed s ≤
      compute_win_chance php' ehp phit pd ehit ed s := by
  obtain ⟨hp0, hp1⟩ := hit_prob_bounds phit hphit0 hphit1
  obtain ⟨he0, he1⟩ := hit_prob_bounds ehit hehit0 hehit1
  have hnn := round_outcomes_prob_nonneg pd ed ((phit : ℚ) / 100)
    ((ehit : ℚ) / 100) s hp0 hp1 he0 he1
  rw [compute_win_chance_eq_lossy, compute_win_chance_eq_lossy]
  rw [lossyWinWithin_stable _ _ _ _ (php' + ehp) le_rfl (by omega)]
  exact lossyWinWithin_mono_b _ hnn _ _ _ _ h

lemma cwc_anti_enemy_hp (php ehp ehp' : ℕ) (phit : ℤ) (pd : ℕ) (ehit : ℤ)
    (ed : ℕ) (s : String)
    (hphit0 : 0 ≤ phit) (hphit1 : phit ≤ 100)
    (hehit0 : 0 ≤ ehit) (hehit1 : ehit ≤ 100)
    (h : ehp ≤ ehp') :
    compute_win_chance php ehp' phit pd ehit ed s ≤
      compute_win_chance php ehp phit pd ehit ed s := by
  obtain ⟨hp0, hp1⟩ := hit_prob_bounds phit hphit0 hphit1
  obtain ⟨he0, he1⟩ := hit_prob_bounds ehit hehit0 hehit1
  have hnn := round_outcomes_prob_nonneg pd ed ((phit : ℚ) / 100)
    ((ehit : ℚ) / 100) s hp0 hp1 he0 he1
  have hsum := le_of_eq (round_outcomes_prob_sum pd ed ((phit : ℚ) / 100)
    ((ehit : ℚ) / 100) s)
  rw [compute_win_chance_eq_lossy, compute_win_chance_eq_lossy]
  rw [lossyWinWithin_stable _ _ _ (php + ehp) (php + ehp') (le_rfl) (by omega)]
  exact lossyWinWithin_anti_e _ hnn hsum _ _ _ _ h

lemma cwc_mono_player_hit (php ehp : ℕ) (phit phit' : ℤ) (pd : ℕ) (ehit : ℤ)
    (ed : ℕ) (s : String)
    (hphit0 : 0 ≤ phit) (hphitm : phit ≤ phit') (hphit1 : phit' ≤ 100)
    (hehit0 : 0 ≤ ehit) (hehit1 : ehit ≤ 100) :
    compute_win_chance php ehp phit pd ehit ed s ≤
      compute_win_chance php ehp phit' pd ehit ed s := by
  obtain ⟨hp0, _⟩ := hit_prob_bounds phit hphit0 (by omega)
  obtain ⟨_, hp1'⟩ := hit_prob_bounds phit' (by omega) hphit1
  obtain ⟨he0, he1⟩ := hit_prob_bounds ehit hehit0 hehit1
  have hdiv : (phit : ℚ) / 100 ≤ (phit' : ℚ) / 100 := by
    have : (phit : ℚ) ≤ (phit' : ℚ) := by exact_mod_cast hphitm
    linarith
  rw [compute_win_chance_eq_lossy, compute_win_chance_eq_lossy]
  unfold round_outcomes
  split
  · exact lossy_enemy_mono_ph pd ed _ _ _ hp0 hdiv hp1' he0 he1 _ _ _
  split
  · exact lossy_player_mono_ph pd ed _ _ _ hp0 hdiv hp1' he0 he1 _ _ _
  · exact lossy_none_mono_ph pd ed _ _ _ hp0 hdiv hp1' he0 he1 _ _ _

lemma cwc_mono_player_dmg (php ehp : ℕ) (phit : ℤ) (pd pd' : ℕ) (ehit : ℤ)
    (ed : ℕ) (s : String)
    (hphit0 : 0 ≤ phit) (hphit1 : phit ≤ 100)
    (hehit0 : 0 ≤ ehit) (hehit1 : ehit ≤ 100)
    (h : pd ≤ pd') :
    compute_win_chance php ehp phit pd ehit ed s ≤
      compute_win_chance php ehp phit pd' ehit ed s := by
  obtain ⟨hp0, hp1⟩ := hit_prob_bounds phit hphit0 hphit1
  obtain ⟨he0, he1⟩ := hit_prob_bounds ehit hehit0 hehit1
  have hnn' := round_outcomes_prob_nonneg pd' ed ((phit : ℚ) / 100)
    ((ehit : ℚ) / 100) s hp0 hp1 he0 he1
  have hsum' := le_of_eq (round_outcomes_prob_sum pd' ed ((phit : ℚ) / 100)
    ((ehit : ℚ) / 100) s)
  rw [compute_win_chance_eq_lossy, compute_win_chance_eq_lossy]
  exact lossyWinWithin_mono_outcomes _ _ hnn' hsum'
    (round_outcomes_forall2_pd pd pd' ed _ _ s h) _ _ _

/-! ## Cells stay in the unit interval -/

lemma init_dp_bounds (b e : ℕ) : 0 ≤ init_dp b e ∧ init_dp b e ≤ 1 := by
  rw [init_dp_apply]
  split
  · norm_num
  split <;> norm_num

/-- A single recurrence evaluation stays in `[0,1]` whenever the table it
reads from does. -/
lemma cellProb_bounds (outcomes : List (ℕ × ℕ × ℚ)) (t : Table)
    (hnn : ∀ o ∈ outcomes, 0 ≤ o.2.2)
    (hsum : (outcomes.map (fun o => o.2.2)).sum ≤ 1)
    (ht : ∀ x y, 0 ≤ t x y ∧ t x y ≤ 1) (b e : ℕ) :
    0 ≤ cellProb outcomes t b e ∧ cellProb outcomes t b e ≤ 1 := by
  constructor
  · apply List.sum_nonneg
    intro x hx
    obtain ⟨o, ho, rfl⟩ := List.mem_map.mp hx
    exact mul_nonneg (hnn o ho) (ht _ _).1
  · refine le_trans (List.sum_le_sum ?_) hsum
    intro o ho
    calc o.2.2 * t (b - o.2.1) (e - o.1)
        ≤ o.2.2 * 1 := mul_le_mul_of_nonneg_left (ht _ _).2 (hnn o ho)
      _ = o.2.2 := mul_one _

lemma fillRow_bounds (outcomes : List (ℕ × ℕ × ℚ))
    (hnn : ∀ o ∈ outcomes, 0 ≤ o.2.2)
    (hsum : (outcomes.map (fun o => o.2.2)).sum ≤ 1)
    (E b_hp : ℕ) (t : Table) (ht : ∀ x y, 0 ≤ t x y ∧ t x y ≤ 1) :
    ∀ x y, 0 ≤ fillRow outcomes E b_hp t x y ∧ fillRow outcomes E b_hp t x y ≤ 1 := by
  induction E with
  | zero => exact ht
  | succ E ih =>
    intro x y
    rw [fillRow_succ]
    unfold updateCell
    split
    · exact cellProb_bounds outcomes _ hnn hsum ih _ _
    · exact ih x y

lemma fillTable_bounds (outcomes : List (ℕ × ℕ × ℚ))
    (hnn : ∀ o ∈ outcomes, 0 ≤ o.2.2)
    (hsum : (outcomes.map (fun o => o.2.2)).sum ≤ 1)
    (P E : ℕ) (t : Table) (ht : ∀ x y, 0 ≤ t x y ∧ t x y ≤ 1) :
    ∀ x y, 0 ≤ fillTable outcomes P E t x y ∧ fillTable outcomes P E t x y ≤ 1 := by
  induction P with
  | zero => exact ht
  | succ P ih =>
    rw [fillTable_succ]
    exact fillRow_bounds outcomes hnn hsum E (P + 1) _ ih

/-! ## Outcome-set facts for the degenerate cases -/

/-- With zero player damage, no outcome damages the enemy. -/
lemma round_outcomes_pd_zero_fst (ed : ℕ) (ph eh : ℚ) (s : String) :
    ∀ o ∈ round_outcomes 0 ed ph eh s, o.1 = 0 := by
  unfold round_outcomes
  split
  · intro o ho
    simp only [outcomes_enemy, List.mem_cons, List.not_mem_nil, or_false] at ho
    rcases ho with rfl | rfl | rfl | rfl | rfl | rfl <;> rfl
  split
  · intro o ho
    simp only [outcomes_player, List.mem_cons, List.not_mem_nil, or_false] at ho
    rcases ho with rfl | rfl | rfl | rfl | rfl | rfl <;> simp
  · intro o ho
    simp only [outcomes_none, List.mem_cons, List.not_mem_nil, or_false] at ho
    rcases ho with rfl | rfl | rfl | rfl <;> rfl

/-- With zero enemy damage, no outcome damages the player. -/
lemma round_outcomes_ed_zero_snd (pd : ℕ) (ph eh : ℚ) (s : String) :
    ∀ o ∈ round_outcomes pd 0 ph eh s, o.2.1 = 0 := by
  unfold round_outcomes
  split
  · intro o ho
    simp only [outcomes_enemy, List.mem_cons, List.not_mem_nil, or_false] at ho
    rcases ho with rfl | rfl | rfl | rfl | rfl | rfl <;> simp
  split
  · intro o ho
    simp only [outcomes_player, List.mem_cons, List.not_mem_nil, or_false] at ho
    rcases ho with rfl | rfl | rfl | rfl | rfl | rfl <;> rfl
  · intro o ho
    simp only [outcomes_none, List.mem_cons, List.not_mem_nil, or_false] at ho
    rcases ho with rfl | rfl | rfl | rfl <;> rfl

/-- With a certain player hit (`p_phit = 1`) and positive player damage,
every outcome of nonzero probability damages the enemy: the outcomes that
deal no enemy damage all carry a `1 - 1 = 0` miss factor. -/
lemma round_outcomes_ph_one_progress (pd ed : ℕ) (eh : ℚ) (s : String)
    (hpd : pd ≠ 0) :
    ∀ o ∈ round_outcomes pd ed 1 eh s, o.2.2 ≠ 0 → o.1 ≠ 0 := by
  unfold round_outcomes
  split
  · intro o ho
    simp only [outcomes_enemy, List.mem_cons, List.not_mem_nil, or_false] at ho
    rcases ho with rfl | rfl | rfl | rfl | rfl | rfl <;> intro hz <;>
      first
        | exact hpd
        | (exfalso; apply hz; norm_num)
  split
  · intro o ho
    simp only [outcomes_player, List.mem_cons, List.not_mem_nil, or_false] at ho
    rcases ho with rfl | rfl | rfl | rfl | rfl | rfl <;> intro hz <;>
      first
        | (simp only []; omega)
        | (exfalso; apply hz; norm_num)
  · intro o ho
    simp only [outcomes_none, List.mem_cons, List.not_mem_nil, or_false] at ho
    rcases ho with rfl | rfl | rfl | rfl <;> intro hz <;>
      first
        | exact hpd
        | (exfalso; apply hz; norm_num)

/-! ## Claim theorems -/

/-- C1, counterexample.  At `playerHP = enemyHP = 1`, both hits 50, both
damages 1, mode "none" (the spec's scenario C input), the code returns
`1/2`, yet the probability of the player winning within just two rounds is
already `5/8`.  Since `winWithin` only grows with the horizon
(`winWithin_fuel_mono`), the probability over all sequences of outcomes is
at least `5/8 > 1/2`, so `compute_win_chance` does not return that
probability.  (The discrepancy: the both-miss round re-enters the same
state with probability 1/4, but the code counts it as a loss.) -/
theorem C1_counterexample :
    compute_win_chance 1 1 50 1 50 1 "none" = 1/2 ∧
    winWithin (round_outcomes 1 1 ((50:ℚ)/100) ((50:ℚ)/100) "none") 2 1 1 = 5/8 := by
  constructor
  · norm_num [compute_win_chance, fillTable, fillRow, List.range', updateCell,
      cellProb, round_outcomes_none_str, outcomes_none, init_dp, set_col_zero,
      set_row_zero, zeros_table]
  · norm_num [winWithin, trueStep, round_outcomes_none_str, outcomes_none]

/-- C1, amended.  `compute_win_chance` returns the win probability of the
*modified* ("lossy") fight in which a round dealing zero damage to both
sides immediately ends the fight as a player loss — equivalently, the
finite-horizon lossy win probability at any horizon of at least
`playerHP + enemyHP` rounds (the lossy fight always ends within that many
rounds).  It does not, in general, equal the win probability over all
sequences of round outcomes (see the counterexample). -/
theorem C1_amended (player_hp enemy_hp : ℕ) (player_hit : ℤ) (player_dmg : ℕ)
    (enemy_hit : ℤ) (enemy_dmg : ℕ) (doubling : String) (n : ℕ)
    (hn : player_hp + enemy_hp ≤ n) :
    compute_win_chance player_hp enemy_hp player_hit player_dmg enemy_hit
        enemy_dmg doubling =
      lossyWinWithin
        (round_outcomes player_dmg enemy_dmg ((player_hit : ℚ) / 100)
          ((enemy_hit : ℚ) / 100) doubling) n player_hp enemy_hp := by
  rw [compute_win_chance_eq_lossy]
  exact lossyWinWithin_stable _ _ _ _ _ le_rfl hn

/-- Witness for C1's amended theorem at a concrete input. -/
theorem C1_amended_witness :
    1 + 1 ≤ 2 ∧
    compute_win_chance 1 1 50 1 50 1 "none" =
      lossyWinWithin (round_outcomes 1 1 ((50:ℚ)/100) ((50:ℚ)/100) "none") 2 1 1 :=
  ⟨by norm_num, C1_amended 1 1 50 1 50 1 "none" 2 (by norm_num)⟩

/-- C2.  The boundary conditions are applied in source order (row
`playerHP = 0` set to 0 first, then column `enemyHP = 0` set to 1, the
second overwriting the overlap — this order is fixed in the definition of
`init_dp`), so cell `(0,0)` holds 1 both initially and in the final table:
simultaneous mutual defeat counts as a player victory. -/
theorem C2_thm (player_dmg enemy_dmg : ℕ) (p_phit p_emhit : ℚ) (s : String)
    (P E : ℕ) :
    init_dp 0 0 = 1 ∧
    fillTable (round_outcomes player_dmg enemy_dmg p_phit p_emhit s) P E
      init_dp 0 0 = 1 := by
  constructor
  · rw [init_dp_apply]; norm_num
  · rw [fillTable_untouched _ _ _ _ _ _ (by omega), init_dp_apply]; norm_num

/-- C3, counterexample.  The code performs no input validation at all:
`playerHP = 0` (invalid per the claim) is not rejected — the call completes
and returns 0 — and a hit chance of 150 (outside `[0,100]`) is likewise
accepted, producing the out-of-range "probability" `3/2`. -/
theorem C3_counterexample :
    compute_win_chance_py 0 1 50 1 50 1 "none" = some 0 ∧
    compute_win_chance_py 1 1 150 1 50 1 "none" = some (3/2) := by
  constructor
  · norm_num [compute_win_chance_py, compute_win_chance, fillTable, fillRow,
      List.range', updateCell, cellProb, round_outcomes_none_str, outcomes_none,
      init_dp, set_col_zero, set_row_zero, zeros_table]
  · norm_num [compute_win_chance_py, compute_win_chance, fillTable, fillRow,
      List.range', updateCell, cellProb, round_outcomes_none_str, outcomes_none,
      init_dp, set_col_zero, set_row_zero, zeros_table]

/-- C3, amended.  `compute_win_chance` rejects nothing itself: every call
with non-negative HP values (including zero HP and hit chances outside
`[0,100]`) runs to completion and produces a result.  Only negative HP
values abort the call, and that failure comes from the numpy table
construction (negative dimension / empty-axis assignment), not from a
validation step before allocation. -/
theorem C3_amended (player_hp enemy_hp player_hit : ℤ) (player_dmg : ℕ)
    (enemy_hit : ℤ) (enemy_dmg : ℕ) (doubling : String) :
    (0 ≤ player_hp → 0 ≤ enemy_hp →
      (compute_win_chance_py player_hp enemy_hp player_hit player_dmg enemy_hit
        enemy_dmg doubling).isSome = true) ∧
    (player_hp < 0 ∨ enemy_hp < 0 →
      compute_win_chance_py player_hp enemy_hp player_hit player_dmg enemy_hit
        enemy_dmg doubling = none) := by
  constructor
  · intro h1 h2
    unfold compute_win_chance_py
    rw [if_neg (by omega)]
    rfl
  · intro h
    unfold compute_win_chance_py
    rw [if_pos h]

/-- Witness for C3's amended theorem at concrete inputs. -/
theorem C3_amended_witness :
    (compute_win_chance_py 0 1 150 1 50 1 "none").isSome = true ∧
    compute_win_chance_py (-1) 1 50 1 50 1 "none" = none :=
  ⟨(C3_amended 0 1 150 1 50 1 "none").1 (by norm_num) (by norm_num),
   (C3_amended (-1) 1 50 1 50 1 "none").2 (by norm_num)⟩

/-- C4.  For hit chances in `[0,100]` and any doubling mode, the round
outcome probabilities sum to exactly 1 (in exact arithmetic), each one lies
in `[0,1]`, and the outcome count is 6 for "player", 6 for
"enemy"/"unknown", and 4 for every other mode string. -/
theorem C4_thm (player_dmg enemy_dmg : ℕ) (player_hit enemy_hit : ℤ)
    (s : String)
    (h1 : 0 ≤ player_hit) (h2 : player_hit ≤ 100)
    (h3 : 0 ≤ enemy_hit) (h4 : enemy_hit ≤ 100) :
    ((round_outcomes player_dmg enemy_dmg ((player_hit : ℚ) / 100)
        ((enemy_hit : ℚ) / 100) s).map (fun o => o.2.2)).sum = 1 ∧
    (∀ o ∈ round_outcomes player_dmg enemy_dmg ((player_hit : ℚ) / 100)
        ((enemy_hit : ℚ) / 100) s, 0 ≤ o.2.2 ∧ o.2.2 ≤ 1) ∧
    (round_outcomes player_dmg enemy_dmg ((player_hit : ℚ) / 100)
        ((enemy_hit : ℚ) / 100) "player").length = 6 ∧
    (round_outcomes player_dmg enemy_dmg ((player_hit : ℚ) / 100)
        ((enemy_hit : ℚ) / 100) "enemy").length = 6 ∧
    (round_outcomes player_dmg enemy_dmg ((player_hit : ℚ) / 100)
        ((enemy_hit : ℚ) / 100) "unknown").length = 6 ∧
    (∀ s', s' ≠ "enemy" → s' ≠ "unknown" → s' ≠ "player" →
      (round_outcomes player_dmg enemy_dmg ((player_hit : ℚ) / 100)
        ((enemy_hit : ℚ) / 100) s').length = 4) := by
  obtain ⟨hp0, hp1⟩ := hit_prob_bounds player_hit h1 h2
  obtain ⟨he0, he1⟩ := hit_prob_bounds enemy_hit h3 h4
  refine ⟨round_outcomes_prob_sum _ _ _ _ _, fun o ho =>
    ⟨round_outcomes_prob_nonneg _ _ _ _ _ hp0 hp1 he0 he1 o ho,
     round_outcomes_prob_le_one _ _ _ _ _ hp0 hp1 he0 he1 o ho⟩, ?_, ?_, ?_, ?_⟩
  · rw [round_outcomes_player_str]; simp [outcomes_player]
  · rw [round_outcomes_enemy_str]; simp [outcomes_enemy]
  · rw [round_outcomes_unknown_str]; simp [outcomes_enemy]
  · intro s' g1 g2 g3
    rw [round_outcomes_other_str _ _ _ _ _ g1 g2 g3]; simp [outcomes_none]

/-- Witness for C4 at a concrete input. -/
theorem C4_witness :
    ((round_outcomes 1 1 ((50 : ℚ) / 100) ((50 : ℚ) / 100) "none").map
      (fun o => o.2.2)).sum = 1 :=
  (C4_thm 1 1 50 50 "none" (by norm_num) (by norm_num) (by norm_num)
    (by norm_num)).1

/-- C5, counterexample.  Monotonicity fails on the enemy side: with
`playerHP = 2, enemyHP = 1, playerHit = 50, playerDamage = 1`, raising
`enemyHit` from 0 to 100 (damage 1) *raises* the result from `1/2` to
`3/4`; and at `enemyHit = 100`, raising `enemyDamage` from 0 to 1 also
raises it from `1/2` to `3/4`.  (Cause: a round in which nobody's HP moves
is counted as a loss by the DP's self-read of the unwritten cell, so an
enemy that can actually hit keeps the fight — and the player's chances —
alive.) -/
theorem C5_counterexample :
    compute_win_chance 2 1 50 1 0 1 "none" = 1/2 ∧
    compute_win_chance 2 1 50 1 100 1 "none" = 3/4 ∧
    compute_win_chance 2 1 50 1 100 0 "none" = 1/2 := by
  refine ⟨?_, ?_, ?_⟩ <;>
    norm_num [compute_win_chance, fillTable, fillRow, List.range', updateCell,
      cellProb, round_outcomes_none_str, outcomes_none, init_dp, set_col_zero,
      set_row_zero, zeros_table]

/-- C5, amended.  The monotonicity properties that do hold (hit chances in
`[0,100]`): increasing `playerHP` never decreases the result, increasing
`enemyHP` never increases it, and increasing `playerHit` or `playerDamage`
never decreases it.  The enemy-side clauses of the original claim
(`enemyHit`/`enemyDamage` never increase the result) are false, see the
counterexample. -/
theorem C5_amended (php php' ehp ehp' : ℕ) (phit phit' : ℤ) (pd pd' : ℕ)
    (ehit : ℤ) (ed : ℕ) (s : String)
    (h1 : 0 ≤ phit) (h2 : phit ≤ phit') (h3 : phit' ≤ 100)
    (h4 : 0 ≤ ehit) (h5 : ehit ≤ 100)
    (h6 : php ≤ php') (h7 : ehp ≤ ehp') (h8 : pd ≤ pd') :
    compute_win_chance php ehp phit pd ehit ed s ≤
      compute_win_chance php' ehp phit pd ehit ed s ∧
    compute_win_chance php ehp' phit pd ehit ed s ≤
      compute_win_chance php ehp phit pd ehit ed s ∧
    compute_win_chance php ehp phit pd ehit ed s ≤
      compute_win_chance php ehp phit' pd ehit ed s ∧
    compute_win_chance php ehp phit pd ehit ed s ≤
      compute_win_chance php ehp phit pd' ehit ed s :=
  ⟨cwc_mono_player_hp php php' ehp phit pd ehit ed s h1 (by omega) h4 h5 h6,
   cwc_anti_enemy_hp php ehp ehp' phit pd ehit ed s h1 (by omega) h4 h5 h7,
   cwc_mono_player_hit php ehp phit phit' pd ehit ed s h1 h2 h3 h4 h5,
   cwc_mono_player_dmg php ehp phit pd pd' ehit ed s h1 (by omega) h4 h5 h8⟩

/-- Witness for C5's amended theorem at a concrete input. -/
theorem C5_amended_witness :
    compute_win_chance 1 1 40 1 50 1 "none" ≤
      compute_win_chance 2 1 40 1 50 1 "none" :=
  (C5_amended 1 2 1 2 40 60 1 2 50 1 "none" (by norm_num) (by norm_num)
    (by norm_num) (by norm_num) (by norm_num) (by omega) (by omega) (by omega)).1

/-- C6, counterexample.  With `enemyDamage = 0` and `enemyHit = 50 > 0`
(`playerHP = enemyHP = 1, playerHit = 50, playerDamage = 1`, mode "none")
the claim demands result 1, but the code returns `1/2`: the enemy cannot
kill the player, yet every round in which the player misses is absorbed as
a loss by the DP's self-read of the unwritten cell. -/
theorem C6_counterexample :
    compute_win_chance 1 1 50 1 50 0 "none" = 1/2 := by
  norm_num [compute_win_chance, fillTable, fillRow, List.range', updateCell,
    cellProb, round_outcomes_none_str, outcomes_none, init_dp, set_col_zero,
    set_row_zero, zeros_table]

/-- C6, amended.  The second degenerate case holds as claimed: with
`playerDamage = 0` (and a live enemy) the result is 0, for any hit chances
and either damage.  The first must be strengthened to a certain hit: with
`enemyDamage = 0`, `playerDamage ≥ 1` and `playerHit = 100` the result
is 1; for `playerHit < 100` the result can be below 1 even though the
enemy can never kill the player (see the counterexample). -/
theorem C6_amended (php ehp : ℕ) (phit : ℤ) (pd : ℕ) (ehit : ℤ) (ed : ℕ)
    (s : String) :
    (1 ≤ php → 1 ≤ pd →
      compute_win_chance php ehp 100 pd ehit 0 s = 1) ∧
    (1 ≤ ehp →
      compute_win_chance php ehp phit 0 ehit ed s = 0) := by
  constructor
  · intro hphp hpd
    rw [compute_win_chance_eq_lossy]
    have h100 : ((100 : ℤ) : ℚ) / 100 = 1 := by norm_num
    rw [h100]
    exact lossyWinWithin_eq_one _
      (round_outcomes_ed_zero_snd pd 1 ((ehit : ℚ) / 100) s)
      (round_outcomes_ph_one_progress pd 0 ((ehit : ℚ) / 100) s (by omega))
      (round_outcomes_prob_sum pd 0 1 ((ehit : ℚ) / 100) s)
      _ _ _ hphp (by omega)
  · intro hehp
    rw [compute_win_chance_eq_lossy]
    exact lossyWinWithin_eq_zero_of_no_player_dmg _
      (round_outcomes_pd_zero_fst ed ((phit : ℚ) / 100) ((ehit : ℚ) / 100) s)
      _ _ _ hehp

/-- Witness for C6's amended theorem at concrete inputs. -/
theorem C6_amended_witness :
    compute_win_chance 1 1 100 1 50 0 "none" = 1 ∧
    compute_win_chance 1 1 50 0 50 1 "none" = 0 :=
  ⟨(C6_amended 1 1 50 1 50 0 "none").1 (by omega) (by omega),
   (C6_amended 1 1 50 0 50 1 "none").2 (by omega)⟩

/-- C7, counterexample.  Not every referenced cell has been computed when a
cell is filled: at the scenario-C input, while filling cell `(1,1)` the
zero-damage outcome `(0, 0, 1/4)` references cell `(1,1)` itself, whose
value at that moment is the unwritten initial 0, although its computed
value is `1/2`. -/
theorem C7_counterexample :
    ((0:ℕ), (0:ℕ), ((1:ℚ)/4)) ∈
      round_outcomes 1 1 ((50:ℚ)/100) ((50:ℚ)/100) "none" ∧
    table_before (round_outcomes 1 1 ((50:ℚ)/100) ((50:ℚ)/100) "none")
      1 1 1 1 1 = 0 ∧
    fillTable (round_outcomes 1 1 ((50:ℚ)/100) ((50:ℚ)/100) "none")
      1 1 init_dp 1 1 = 1/2 := by
  refine ⟨?_, ?_, ?_⟩
  · norm_num [round_outcomes_none_str, outcomes_none]
  · norm_num [table_before, fillTable, fillRow, List.range', updateCell,
      cellProb, round_outcomes_none_str, outcomes_none, init_dp, set_col_zero,
      set_row_zero, zeros_table]
  · norm_num [fillTable, fillRow, List.range', updateCell, cellProb,
      round_outcomes_none_str, outcomes_none, init_dp, set_col_zero,
      set_row_zero, zeros_table]

/-- C7, amended.  When cell `(b, e)` is filled, its value is the recurrence
evaluated on the table state at that moment (`table_before`); every
referenced cell *except `(b, e)` itself* already holds its final computed
value (boundary cells hold their boundary value); the outcomes dealing zero
damage to both sides reference `(b, e)` itself and read the unwritten
value 0. -/
theorem C7_amended (outcomes : List (ℕ × ℕ × ℚ)) (P E b e : ℕ)
    (hb1 : 1 ≤ b) (hbP : b ≤ P) (he1 : 1 ≤ e) (heE : e ≤ E) :
    fillTable outcomes P E init_dp b e =
      cellProb outcomes (table_before outcomes E b e) b e ∧
    (∀ o ∈ outcomes, ¬(o.1 = 0 ∧ o.2.1 = 0) →
      table_before outcomes E b e (b - o.2.1) (e - o.1) =
        fillTable outcomes P E init_dp (b - o.2.1) (e - o.1)) ∧
    (∀ o ∈ outcomes, o.1 = 0 ∧ o.2.1 = 0 →
      table_before outcomes E b e (b - o.2.1) (e - o.1) = 0) := by
  refine ⟨fillTable_master outcomes P E b e hb1 hbP he1 heE, ?_, ?_⟩
  · intro o _ hnull
    exact table_before_read outcomes P E b e hb1 hbP he1 heE _ _ (by omega)
      (by omega) (by omega)
  · intro o _ hnull
    obtain ⟨h1, h2⟩ := hnull
    rw [h1, h2, Nat.sub_zero, Nat.sub_zero,
      table_before_self outcomes E b e hb1 he1, init_dp_apply]
    simp
    omega

/-- Witness for C7's amended theorem at a concrete input. -/
theorem C7_amended_witness :
    fillTable (round_outcomes 1 1 ((50:ℚ)/100) ((50:ℚ)/100) "none")
        1 1 init_dp 1 1 =
      cellProb (round_outcomes 1 1 ((50:ℚ)/100) ((50:ℚ)/100) "none")
        (table_before (round_outcomes 1 1 ((50:ℚ)/100) ((50:ℚ)/100) "none")
          1 1 1) 1 1 :=
  (C7_amended (round_outcomes 1 1 ((50:ℚ)/100) ((50:ℚ)/100) "none")
    1 1 1 1 (by omega) (by omega) (by omega) (by omega)).1

/-- C8.  `doublingMode = "unknown"` behaves exactly like `"enemy"` (the
dispatch selects the same outcome list), and every other string that is not
"player"/"enemy"/"unknown" falls through to the four-outcome "none"
behaviour — no error is raised anywhere on the mode string. -/
theorem C8_thm (php ehp : ℕ) (phit : ℤ) (pd : ℕ) (ehit : ℤ) (ed : ℕ)
    (s : String) (g1 : s ≠ "enemy") (g2 : s ≠ "unknown") (g3 : s ≠ "player") :
    compute_win_chance php ehp phit pd ehit ed "unknown" =
      compute_win_chance php ehp phit pd ehit ed "enemy" ∧
    round_outcomes pd ed ((phit : ℚ) / 100) ((ehit : ℚ) / 100) s =
      outcomes_none pd ed ((phit : ℚ) / 100) ((ehit : ℚ) / 100) ∧
    (round_outcomes pd ed ((phit : ℚ) / 100) ((ehit : ℚ) / 100) s).length = 4 ∧
    compute_win_chance php ehp phit pd ehit ed s =
      compute_win_chance php ehp phit pd ehit ed "none" := by
  refine ⟨?_, ?_, ?_, ?_⟩
  · simp only [compute_win_chance]
    rw [round_outcomes_unknown_str, round_outcomes_enemy_str]
  · exact round_outcomes_other_str _ _ _ _ _ g1 g2 g3
  · rw [round_outcomes_other_str _ _ _ _ _ g1 g2 g3]
    simp [outcomes_none]
  · simp only [compute_win_chance]
    rw [round_outcomes_other_str _ _ _ _ _ g1 g2 g3, round_outcomes_none_str]

/-- Witness for C8 at a concrete input. -/
theorem C8_witness :
    compute_win_chance 1 1 50 1 50 1 "unknown" =
      compute_win_chance 1 1 50 1 50 1 "enemy" ∧
    compute_win_chance 1 1 50 1 50 1 "banana" =
      compute_win_chance 1 1 50 1 50 1 "none" :=
  ⟨(C8_thm 1 1 50 1 50 1 "banana" (by decide) (by decide) (by decide)).1,
   (C8_thm 1 1 50 1 50 1 "banana" (by decide) (by decide) (by decide)).2.2.2⟩

/-- C9.  The three concrete scenarios from the spec, mode "none",
`playerHP = enemyHP = 1`, both damages 1: symmetric 50/50 hits give
exactly `1/2`; `playerHit = 100, enemyHit = 0` gives 1; `playerHit = 0,
enemyHit = 100` gives 0. -/
theorem C9_thm :
    compute_win_chance 1 1 50 1 50 1 "none" = 1/2 ∧
    compute_win_chance 1 1 100 1 0 1 "none" = 1 ∧
    compute_win_chance 1 1 0 1 100 1 "none" = 0 := by
  refine ⟨?_, ?_, ?_⟩ <;>
    norm_num [compute_win_chance, fillTable, fillRow, List.range', updateCell,
      cellProb, round_outcomes_none_str, outcomes_none, init_dp, set_col_zero,
      set_row_zero, zeros_table]

/-- C10.  With hit chances in `[0,100]` (damages are non-negative by type),
every cell of every intermediate table state of the computation lies in
`[0,1]` — the initial boundary table, the state after any number of
completed rows, and any partial state while a row is being filled — and so
does the returned value, with no clamping anywhere in the code. -/
theorem C10_thm (php ehp : ℕ) (phit : ℤ) (pd : ℕ) (ehit : ℤ) (ed : ℕ)
    (s : String)
    (h1 : 0 ≤ phit) (h2 : phit ≤ 100) (h3 : 0 ≤ ehit) (h4 : ehit ≤ 100) :
    (∀ x y, 0 ≤ init_dp x y ∧ init_dp x y ≤ 1) ∧
    (∀ j k r x y,
      0 ≤ fillRow (round_outcomes pd ed ((phit : ℚ) / 100) ((ehit : ℚ) / 100) s)
            k r (fillTable (round_outcomes pd ed ((phit : ℚ) / 100)
              ((ehit : ℚ) / 100) s) j ehp init_dp) x y ∧
      fillRow (round_outcomes pd ed ((phit : ℚ) / 100) ((ehit : ℚ) / 100) s)
            k r (fillTable (round_outcomes pd ed ((phit : ℚ) / 100)
              ((ehit : ℚ) / 100) s) j ehp init_dp) x y ≤ 1) ∧
    (0 ≤ compute_win_chance php ehp phit pd ehit ed s ∧
      compute_win_chance php ehp phit pd ehit ed s ≤ 1) := by
  obtain ⟨hp0, hp1⟩ := hit_prob_bounds phit h1 h2
  obtain ⟨he0, he1⟩ := hit_prob_bounds ehit h3 h4
  have hnn := round_outcomes_prob_nonneg pd ed ((phit : ℚ) / 100)
    ((ehit : ℚ) / 100) s hp0 hp1 he0 he1
  have hsum := le_of_eq (round_outcomes_prob_sum pd ed ((phit : ℚ) / 100)
    ((ehit : ℚ) / 100) s)
  refine ⟨init_dp_bounds, ?_, ?_⟩
  · intro j k r x y
    exact fillRow_bounds _ hnn hsum k r _
      (fillTable_bounds _ hnn hsum j ehp init_dp init_dp_bounds) x y
  · unfold compute_win_chance
    exact fillTable_bounds _ hnn hsum php ehp init_dp init_dp_bounds php ehp

/-- Witness for C10 at a concrete input. -/
theorem C10_witness :
    0 ≤ compute_win_chance 1 1 50 1 50 1 "none" ∧
    compute_win_chance 1 1 50 1 50 1 "none" ≤ 1 :=
  (C10_thm 1 1 50 1 50 1 "none" (by norm_num) (by norm_num) (by norm_num)
    (by norm_num)).2.2
